import Mathlib

/-!
Verification of the cleaning/normalization pipeline of
`Scripts/clean_data.py` (the TabularNormalizer of the specification).

The pipeline is shallowly embedded: a pandas `DataFrame` becomes an ordered
list of named columns, each column a list of cells; a cell is a number, a
text value, or null (`NaN`).  Numeric cells are rationals.  The numpy global
random generator is modelled as a deterministic stream of draws threaded
through the stages, seeded by `np.random.seed`; a `uniform a b` draw lands in
`[a, b)` exactly as numpy's does.  The stages embedded are sections 4-6 of
the script: drop fully-empty rows, fill numeric nulls with the per-column
median, infer/synthesize the treatment-success column, derive the dropout
column, infer/synthesize the year column.
-/

set_option autoImplicit false

namespace TBClean

/-- Cells of a table: a numeric value, a text value, or null (pandas `NaN`). -/
inductive Value where
  | num (q : ℚ)
  | str (s : String)
  | null
deriving DecidableEq, Repr

/-- True exactly on text cells. -/
def Value.isStr : Value → Bool
  | .str _ => true
  | _ => false

/-- True exactly on null cells. -/
def Value.isNull : Value → Bool
  | .null => true
  | _ => false

/-- A data frame: an ordered sequence of named columns. -/
structure Table where
  cols : List (String × List Value)
deriving DecidableEq, Repr

/-- Column names, in order (`df.columns`). -/
def names (t : Table) : List String := t.cols.map Prod.fst

/-- Row count (`len(df)`): the length of the first column. -/
def nrows (t : Table) : ℕ :=
  match t.cols with
  | [] => 0
  | c :: _ => c.2.length

/-- A table is rectangular when every column has `nrows` cells. -/
def Rect (t : Table) : Prop := ∀ c ∈ t.cols, c.2.length = nrows t

/-- Values of the first column carrying the given name (`df[name]`). -/
def getCol (t : Table) (name : String) : Option (List Value) :=
  (t.cols.find? (fun c => c.1 == name)).map Prod.snd

/-- Column assignment `df[name] = vs`: overwrite the values of every column
carrying `name` if one exists, otherwise append a new column at the end. -/
def setCol (t : Table) (name : String) (vs : List Value) : Table :=
  if t.cols.any (fun c => c.1 == name) then
    ⟨t.cols.map (fun c => if c.1 == name then (name, vs) else c)⟩
  else
    ⟨t.cols ++ [(name, vs)]⟩

/-- Column renaming `df.rename(columns={old: nw})`: every column labelled
`old` gets the label `nw`; positions and values are untouched. -/
def renameCols (t : Table) (old nw : String) : Table :=
  ⟨t.cols.map (fun c => if c.1 == old then (nw, c.2) else c)⟩

/-- True when row `i` is null in every column (the rows removed by
`dropna(how=all)`). -/
def rowAllNull (t : Table) (i : ℕ) : Bool :=
  t.cols.all (fun c => (c.2.getD i .null).isNull)

/-- Indices of the rows kept by `dropna(how=all)`. -/
def keptRows (t : Table) : List ℕ :=
  (List.range (nrows t)).filter (fun i => ! rowAllNull t i)

/-- Section 4 of the script, `df_clean.dropna(how=all)`: remove every row
whose cells are all null. -/
def dropEmptyRows (t : Table) : Table :=
  ⟨t.cols.map (fun c => (c.1, (keptRows t).map (fun i => c.2.getD i .null)))⟩

/-- Numeric cells of a column, nulls skipped (what pandas aggregates over). -/
def numsOf : List Value → List ℚ
  | [] => []
  | .num q :: vs => q :: numsOf vs
  | .str _ :: vs => numsOf vs
  | .null :: vs => numsOf vs

/-- Median as pandas computes it over the non-null values: sort; middle
element when the count is odd, mean of the two middle elements when even;
undefined (`NaN`) on an empty column. -/
def median (xs : List ℚ) : Option ℚ :=
  if xs.length = 0 then none
  else
    let s := List.insertionSort (· ≤ ·) xs
    let n := xs.length
    if n % 2 = 1 then some (s.getD (n / 2) 0)
    else some ((s.getD (n / 2 - 1) 0 + s.getD (n / 2) 0) / 2)

/-- Replace a null cell by the fill value; keep any other cell. -/
def fillWith (m : ℚ) (v : Value) : Value :=
  if v.isNull then .num m else v

/-- Fill the nulls of one column with its own median
(`df_clean[col].fillna(median_val)`); when the median is undefined (all
cells null) the fill value is `NaN` and the column is left as it is. -/
def fillCol (vs : List Value) : List Value :=
  match median (numsOf vs) with
  | none => vs
  | some m => vs.map (fillWith m)

/-- A column is numeric-typed (`select_dtypes(include=[np.number])`) when
none of its cells is text: a CSV column of numbers and blanks gets dtype
float, an all-blank column gets dtype float as well. -/
def isNumericCol (vs : List Value) : Bool := vs.all (fun v => ! v.isStr)

/-- Section 4 of the script: for every numeric column, replace its nulls by
the column's own median over its non-null values. -/
def fillNumericNulls (t : Table) : Table :=
  ⟨t.cols.map (fun c => if isNumericCol c.2 then (c.1, fillCol c.2) else c)⟩

/-- State of the numpy global random generator, modelled as a deterministic
stream: every draw is a pure function of the state, which is exactly the
reproducibility contract `np.random.seed` gives. -/
structure Gen where
  state : ℕ
deriving DecidableEq, Repr

/-- Advance the generator one step, producing a raw draw below `2 ^ 31`. -/
def genNext (g : Gen) : ℕ × Gen :=
  let s := (g.state * 1103515245 + 12345) % 2147483648
  (s, ⟨s⟩)

/-- The state `np.random.seed n` resets the global generator to. -/
def seedGen (n : ℕ) : Gen := ⟨n % 2147483648⟩

/-- One draw in `[0, 1)`. -/
def unitRand (g : Gen) : ℚ × Gen :=
  let p := genNext g
  ((p.1 : ℚ) / 2147483648, p.2)

/-- One draw of `np.random.uniform(a, b)`: a value in `[a, b)`. -/
def uniform (a b : ℚ) (g : Gen) : ℚ × Gen :=
  let p := unitRand g
  (a + (b - a) * p.1, p.2)

/-- The vector `np.random.uniform(a, b, n)` of `n` independent draws. -/
def uniformN (a b : ℚ) : ℕ → Gen → List ℚ × Gen
  | 0, g => ([], g)
  | n + 1, g =>
    let p := uniform a b g
    let q := uniformN a b n p.2
    (p.1 :: q.1, q.2)

/-- One draw of `np.random.choice` over the integers `lo..hi`. -/
def choiceOf (lo hi : ℤ) (g : Gen) : ℤ × Gen :=
  let p := genNext g
  (lo + (p.1 : ℤ) % (hi - lo + 1), p.2)

/-- The vector `np.random.choice(range(lo, hi+1), n)` of `n` draws. -/
def choiceN (lo hi : ℤ) : ℕ → Gen → List ℤ × Gen
  | 0, g => ([], g)
  | n + 1, g =>
    let p := choiceOf lo hi g
    let q := choiceN lo hi n p.2
    (p.1 :: q.1, q.2)

/-- The keyword list `treatment_keywords` of section 5 of the script. -/
def treatment_keywords : List String :=
  ["success", "rate", "completion", "outcome", "treatment", "cured"]

/-- True when the first list is an initial segment of the second (helper for
the Python `in` operator on strings). -/
def startsWithChars : List Char → List Char → Bool
  | [], _ => true
  | _ :: _, [] => false
  | a :: as, b :: bs => a = b && startsWithChars as bs

/-- The Python lower-casing `s.lower()`, as a character list. -/
def lowerChars (s : String) : List Char := s.toList.map Char.toLower

/-- The Python substring test `pat in hay` on character lists. -/
def strContainsSub (hay pat : List Char) : Bool :=
  (List.range (hay.length + 1)).any (fun i => startsWithChars pat (hay.drop i))

/-- The test `any(keyword in col.lower() for keyword in treatment_keywords)`
of line 124 of the script. -/
def matchesTreatmentKeyword (col : String) : Bool :=
  treatment_keywords.any (fun keyword => strContainsSub (lowerChars col) keyword.toList)

/-- Section 5 of the script: take the first column whose lower-cased name
contains a treatment keyword and rename it `treatment_success_rate`; when no
column matches, seed the generator with 42 and append a synthetic column of
`uniform(70, 95)` draws, one per row. -/
def inferSuccessColumn (t : Table) (g : Gen) : Table × Gen :=
  match (names t).find? matchesTreatmentKeyword with
  | some success_col => (renameCols t success_col "treatment_success_rate", g)
  | none =>
    let p := uniformN 70 95 (nrows t) (seedGen 42)
    (setCol t "treatment_success_rate" (p.1.map Value.num), p.2)

/-- The clamp `Series.clip(lo, hi)` applies to each value. -/
def clip (lo hi x : ℚ) : ℚ := max lo (min hi x)

/-- Lines 142-146 of the script: `dropout = 100 - success` plus a
`uniform(-5, 5)` noise draw per row, clamped to `[0, 100]`.  Pandas
arithmetic propagates null cells (`100 - NaN` is `NaN`, and `clip` keeps
`NaN`), but raises a TypeError when the success column holds text. -/
def deriveDropoutColumn (t : Table) (g : Gen) : Except String (Table × Gen) :=
  match getCol t "treatment_success_rate" with
  | none => .error "KeyError: treatment_success_rate"
  | some vs =>
    if vs.any Value.isStr then
      .error "TypeError: unsupported operand types"
    else
      let p := uniformN (-5) 5 (nrows t) g
      let ds := (vs.zip p.1).map (fun q =>
        match q.1 with
        | .num x => Value.num (clip 0 100 (100 - x + q.2))
        | .str _ => Value.null
        | .null => Value.null)
      .ok (setCol t "dropout_rate" ds, p.2)

/-- The test `'year' in col.lower() or 'date' in col.lower()` of line 155. -/
def matchesYearKeyword (col : String) : Bool :=
  strContainsSub (lowerChars col) "year".toList || strContainsSub (lowerChars col) "date".toList

/-- Section 6 of the script: nothing happens when a column is literally
named `year`; otherwise the first column whose lower-cased name contains
`year` or `date` is renamed `year`; otherwise a synthetic column of
`choice(range(2010, 2024))` draws is appended, one per row. -/
def inferYearColumn (t : Table) (g : Gen) : Table × Gen :=
  if (names t).any (fun n => n == "year") then (t, g)
  else
    match (names t).find? matchesYearKeyword with
    | some year_col => (renameCols t year_col "year", g)
    | none =>
      let p := choiceN 2010 2023 (nrows t) g
      (setCol t "year" (p.1.map (fun y => Value.num (Int.cast y))), p.2)

/-- Sections 4-6 of the script in order: drop fully-empty rows, fill numeric
nulls with medians, resolve the success column, derive the dropout column,
resolve the year column.  The generator state is the numpy global state the
run starts in. -/
def cleanPipeline (t : Table) (g : Gen) : Except String (Table × Gen) :=
  let t1 := dropEmptyRows t
  let t2 := fillNumericNulls t1
  let p3 := inferSuccessColumn t2 g
  match deriveDropoutColumn p3.1 p3.2 with
  | .error e => .error e
  | .ok p4 => .ok (inferYearColumn p4.1 p4.2)

/-- Count of null cells of a column (`df[col].isnull().sum()`). -/
def countNulls (vs : List Value) : ℕ := (vs.filter Value.isNull).length

/-- The column at position `i` (name and values), with a harmless default
out of range. -/
def colAt (t : Table) (i : ℕ) : String × List Value := t.cols.getD i ("", [])

/-- Concrete table of the §8 median scenario: columns `[id, outcome_rate]`
with rows `[(1, null), (2, 50), (3, 70)]`. -/
def scenarioMedianTable : Table :=
  ⟨[("id", [.num 1, .num 2, .num 3]), ("outcome_rate", [.null, .num 50, .num 70])]⟩

/-- True exactly on successful results. -/
def isOkE {ε α : Type} : Except ε α → Bool
  | .ok _ => true
  | .error _ => false

/-- The table of a successful stage result (empty table on an error). -/
def okTable : Except String (Table × Gen) → Table
  | .ok p => p.1
  | .error _ => ⟨[]⟩

/-- Numeric reading of a cell, defaulting to `0` on a non-numeric cell. -/
def valToNumD : Value → ℚ
  | .num q => q
  | .str _ => 0
  | .null => 0

/-- Numeric reading of the cell at position `j`, defaulting to `0` on a
missing or non-numeric cell. -/
def numAtD (vs : List Value) (j : ℕ) : ℚ := valToNumD (vs.getD j .null)

/-- The `dropout_rate` values of a successful stage result. -/
def dropoutValsOf (r : Except String (Table × Gen)) : List Value :=
  (getCol (okTable r) "dropout_rate").getD []

/-- Every numeric column that has at least one non-null cell has no null
cells at all. -/
def NumFilled (t : Table) : Prop :=
  ∀ c ∈ t.cols, isNumericCol c.2 = true → (∃ v ∈ c.2, v.isNull = false) →
    countNulls c.2 = 0

/-- No row of the table is entirely null. -/
def NoEmptyRows (t : Table) : Prop :=
  ∀ i, i < nrows t → rowAllNull t i = false

end TBClean

namespace TBClean

/-! ### Helper lemmas about columns and filling -/

lemma fillWith_isNull (m : ℚ) (v : Value) : (fillWith m v).isNull = false := by
  cases v <;> simp [fillWith, Value.isNull]

lemma fillWith_of_not_null (m : ℚ) (v : Value) (h : v.isNull = false) :
    fillWith m v = v := by
  cases v <;> simp_all [fillWith, Value.isNull]

lemma countNulls_eq_zero (vs : List Value) :
    countNulls vs = 0 ↔ ∀ v ∈ vs, v.isNull = false := by
  simp [countNulls, List.length_eq_zero, List.filter_eq_nil_iff]

lemma median_of_ne_nil (xs : List ℚ) (h : xs ≠ []) : ∃ m, median xs = some m := by
  rw [median]
  rcases Nat.decEq (xs.length % 2) 1 with h2 | h2 <;>
    simp [List.length_eq_zero, h, h2]

lemma fillCol_eq_map (vs : List Value) (h : numsOf vs ≠ []) :
    fillCol vs = vs.map (fillWith ((median (numsOf vs)).getD 0)) := by
  obtain ⟨m, hm⟩ := median_of_ne_nil _ h
  rw [fillCol, hm, Option.getD_some]

lemma fillCol_length (vs : List Value) : (fillCol vs).length = vs.length := by
  rw [fillCol]
  cases median (numsOf vs) <;> simp

lemma getD_map_of_fixed {α β : Type} (f : α → β) (d : α) {d' : β} (hd : f d = d' ) :
    ∀ (l : List α) (i : ℕ), (l.map f).getD i d' = f (l.getD i d)
  | [], i => by simp [List.getD, hd]
  | a :: l, 0 => by simp [List.getD]
  | a :: l, i + 1 => by
    simpa [List.getD] using getD_map_of_fixed f d hd l i

lemma colAt_fillNumericNulls (t : Table) (i : ℕ) :
    colAt (fillNumericNulls t) i =
      (if isNumericCol (colAt t i).2 then
        ((colAt t i).1, fillCol (colAt t i).2)
      else colAt t i) := by
  have h := getD_map_of_fixed
    (fun c : String × List Value => if isNumericCol c.2 then (c.1, fillCol c.2) else c)
    ("", []) (by rfl) t.cols i
  simpa [colAt, fillNumericNulls] using h

/-! ### C2: median filling of numeric columns -/

/-- C2: for every numeric column with at least one non-null value, after
`fillNumericNulls` the column has zero nulls and every previously-null cell
holds exactly that column's own pre-fill median; concretely, on columns
`[id, outcome_rate]` with rows `[(1, null), (2, 50), (3, 70)]` the null
becomes `median(50, 70) = 60`. -/
theorem fillNumericNulls_median_fill :
    (∀ (t : Table) (i : ℕ),
      isNumericCol (colAt t i).2 = true →
      numsOf (colAt t i).2 ≠ [] →
      countNulls (colAt (fillNumericNulls t) i).2 = 0 ∧
      (∀ j, j < (colAt t i).2.length →
        ((colAt t i).2.getD j .null).isNull = true →
        (colAt (fillNumericNulls t) i).2.getD j .null =
          Value.num ((median (numsOf (colAt t i).2)).getD 0)))
    ∧
    fillNumericNulls scenarioMedianTable =
      ⟨[("id", [.num 1, .num 2, .num 3]),
        ("outcome_rate", [.num 60, .num 50, .num 70])]⟩ := by
  constructor
  · intro t i hnum hne
    rw [colAt_fillNumericNulls, if_pos hnum]
    constructor
    · rw [countNulls_eq_zero, fillCol_eq_map _ hne]
      intro v hv
      obtain ⟨w, _, rfl⟩ := List.mem_map.mp hv
      exact fillWith_isNull _ w
    · intro j hj hnull
      rw [fillCol_eq_map _ hne,
        List.getD_eq_getElem _ _ (by simpa using hj),
        List.getElem_map]
      rw [List.getD_eq_getElem _ _ hj] at hnull
      simp [fillWith, hnull]
  · norm_num [scenarioMedianTable, fillNumericNulls, isNumericCol, fillCol, median,
      numsOf, Value.isStr, List.insertionSort, List.orderedInsert, fillWith, Value.isNull]
    decide

/-- Witness for C2 at the concrete §8 scenario table. -/
theorem fillNumericNulls_median_fill_witness :
    countNulls (colAt (fillNumericNulls scenarioMedianTable) 1).2 = 0 ∧
    (colAt (fillNumericNulls scenarioMedianTable) 1).2.getD 0 .null =
      Value.num ((median (numsOf (colAt scenarioMedianTable 1).2)).getD 0) := by
  have h := fillNumericNulls_median_fill.1 scenarioMedianTable 1
    (by decide) (by decide)
  exact ⟨h.1, h.2 0 (by decide) (by decide)⟩

/-! ### Lemmas about the random generator -/

lemma genNext_lt (g : Gen) : (genNext g).1 < 2147483648 :=
  Nat.mod_lt _ (by norm_num)

lemma unitRand_mem (g : Gen) : 0 ≤ (unitRand g).1 ∧ (unitRand g).1 < 1 := by
  simp only [unitRand]
  constructor
  · exact div_nonneg (Nat.cast_nonneg _) (by norm_num)
  · rw [div_lt_one (by norm_num)]
    exact_mod_cast genNext_lt g

lemma uniform_mem (a b : ℚ) (hab : a < b) (g : Gen) :
    a ≤ (uniform a b g).1 ∧ (uniform a b g).1 < b := by
  obtain ⟨h0, h1⟩ := unitRand_mem g
  constructor
  · have : 0 ≤ (b - a) * (unitRand g).1 :=
      mul_nonneg (by linarith) h0
    simp only [uniform]
    linarith
  · have : (b - a) * (unitRand g).1 < (b - a) * 1 :=
      mul_lt_mul_of_pos_left h1 (by linarith)
    simp only [uniform]
    linarith

lemma uniformN_length (a b : ℚ) : ∀ (n : ℕ) (g : Gen), ((uniformN a b n g).1).length = n
  | 0, _ => rfl
  | n + 1, g => by simpa [uniformN] using uniformN_length a b n _

lemma uniformN_mem (a b : ℚ) (hab : a < b) :
    ∀ (n : ℕ) (g : Gen) (q : ℚ), q ∈ (uniformN a b n g).1 → a ≤ q ∧ q < b
  | 0, _, q, hq => by simp [uniformN] at hq
  | n + 1, g, q, hq => by
    simp only [uniformN, List.mem_cons] at hq
    rcases hq with rfl | hq
    · exact uniform_mem a b hab g
    · exact uniformN_mem a b hab n _ q hq

lemma choiceOf_mem (lo hi : ℤ) (hlh : lo ≤ hi) (g : Gen) :
    lo ≤ (choiceOf lo hi g).1 ∧ (choiceOf lo hi g).1 ≤ hi := by
  have hpos : (0 : ℤ) < hi - lo + 1 := by omega
  have h0 : 0 ≤ ((genNext g).1 : ℤ) % (hi - lo + 1) :=
    Int.emod_nonneg _ (by omega)
  have h1 : ((genNext g).1 : ℤ) % (hi - lo + 1) < hi - lo + 1 :=
    Int.emod_lt_of_pos _ hpos
  simp only [choiceOf]
  omega

lemma choiceN_length (lo hi : ℤ) : ∀ (n : ℕ) (g : Gen), ((choiceN lo hi n g).1).length = n
  | 0, _ => rfl
  | n + 1, g => by simpa [choiceN] using choiceN_length lo hi n _

lemma choiceN_mem (lo hi : ℤ) (hlh : lo ≤ hi) :
    ∀ (n : ℕ) (g : Gen) (z : ℤ), z ∈ (choiceN lo hi n g).1 → lo ≤ z ∧ z ≤ hi
  | 0, _, z, hz => by simp [choiceN] at hz
  | n + 1, g, z, hz => by
    simp only [choiceN, List.mem_cons] at hz
    rcases hz with rfl | hz
    · exact choiceOf_mem lo hi hlh g
    · exact choiceN_mem lo hi hlh n _ z hz

/-! ### Lemmas about finding, renaming and assignment -/

lemma find?_eq_some_split {α : Type} (p : α → Bool) :
    ∀ (l : List α) (a : α), l.find? p = some a →
      p a = true ∧ ∃ l1 l2, l = l1 ++ a :: l2 ∧ ∀ x ∈ l1, p x = false
  | [], a, h => by simp [List.find?] at h
  | b :: l, a, h => by
    rcases hp : p b with _ | _
    · rw [List.find?_cons_of_neg _ (by simp [hp])] at h
      obtain ⟨h1, l1, l2, rfl, h3⟩ := find?_eq_some_split p l a h
      exact ⟨h1, b :: l1, l2, rfl, by
        intro x hx
        rcases List.mem_cons.mp hx with rfl | hx
        · exact hp
        · exact h3 x hx⟩
    · rw [List.find?_cons_of_pos _ hp] at h
      obtain rfl := Option.some.inj h
      exact ⟨hp, [], l, rfl, by simp⟩

lemma names_renameCols (t : Table) (old nw : String) :
    names (renameCols t old nw) = (names t).map (fun n => if n == old then nw else n) := by
  simp only [names, renameCols, List.map_map]
  apply List.map_congr_left
  intro c _
  by_cases h : c.1 = old <;> simp [h]

lemma snds_renameCols (t : Table) (old nw : String) :
    (renameCols t old nw).cols.map Prod.snd = t.cols.map Prod.snd := by
  simp only [renameCols, List.map_map]
  apply List.map_congr_left
  intro c _
  by_cases h : c.1 = old <;> simp [h]

lemma renameCols_self (t : Table) (name : String) : renameCols t name name = t := by
  show Table.mk _ = t
  conv_rhs => rw [show t = ⟨t.cols⟩ from rfl]
  congr 1
  rw [List.map_eq_iff]
  intro i
  cases hc : t.cols[i]? with
  | none => rfl
  | some c =>
    obtain ⟨n, vs⟩ := c
    by_cases h : n = name <;> simp [h]

lemma setCol_append (t : Table) (name : String) (vs : List Value)
    (h : ∀ c ∈ t.cols, (c.1 == name) = false) :
    setCol t name vs = ⟨t.cols ++ [(name, vs)]⟩ := by
  have hany : (t.cols.any (fun c => c.1 == name)) = false :=
    List.any_eq_false.mpr (fun c hc => by simp [h c hc])
  simp [setCol, hany]

/-! ### C3: inference of the treatment success column -/

/-- C3: the scan is a case-insensitive substring test against the fixed
keyword list; when a column matches, the first matching column (in original
order) is renamed `treatment_success_rate` (only columns carrying exactly
that first-matching name are renamed, and CSV loading makes names unique),
column values and the generator state untouched; when none matches, a
synthetic `treatment_success_rate` column is appended with one uniform draw
in `[70, 95]` per row. -/
theorem inferSuccessColumn_spec (t : Table) (g : Gen) :
    (∀ c, (names t).find? matchesTreatmentKeyword = some c →
      matchesTreatmentKeyword c = true ∧
      (∃ l1 l2, names t = l1 ++ c :: l2 ∧ ∀ n ∈ l1, matchesTreatmentKeyword n = false) ∧
      (inferSuccessColumn t g).2 = g ∧
      names (inferSuccessColumn t g).1 =
        (names t).map (fun n => if n == c then "treatment_success_rate" else n) ∧
      (inferSuccessColumn t g).1.cols.map Prod.snd = t.cols.map Prod.snd) ∧
    ((names t).find? matchesTreatmentKeyword = none →
      ∃ qs : List ℚ, qs.length = nrows t ∧ (∀ q ∈ qs, 70 ≤ q ∧ q ≤ 95) ∧
        (inferSuccessColumn t g).1.cols =
          t.cols ++ [("treatment_success_rate", qs.map Value.num)]) := by
  constructor
  · intro c hfind
    have hsplit := find?_eq_some_split _ _ _ hfind
    refine ⟨hsplit.1, hsplit.2, ?_, ?_, ?_⟩ <;>
      simp [inferSuccessColumn, hfind, names_renameCols, snds_renameCols]
  · intro hfind
    have hnone := List.find?_eq_none.mp hfind
    refine ⟨(uniformN 70 95 (nrows t) (seedGen 42)).1, uniformN_length _ _ _ _, ?_, ?_⟩
    · intro q hq
      have := uniformN_mem 70 95 (by norm_num) (nrows t) (seedGen 42) q hq
      exact ⟨this.1, le_of_lt this.2⟩
    · simp only [inferSuccessColumn, hfind]
      rw [setCol_append]
      intro cc hc
      rcases hb : cc.1 == "treatment_success_rate" with _ | _
      · rfl
      · have : cc.1 = "treatment_success_rate" := by
          simpa using hb
        have hm := hnone cc.1 (List.mem_map_of_mem Prod.fst hc)
        rw [this] at hm
        exact absurd hm (by decide)

/-- Witness for C3: on the §8 table the first keyword match is
`outcome_rate` and it alone is renamed. -/
theorem inferSuccessColumn_spec_witness :
    names (inferSuccessColumn scenarioMedianTable ⟨0⟩).1 = ["id", "treatment_success_rate"] := by
  have h := (inferSuccessColumn_spec scenarioMedianTable ⟨0⟩).1 "outcome_rate" (by decide)
  rw [h.2.2.2.1]
  decide

/-! ### C5: determinism of the synthetic branch -/

/-- C5: the synthetic branch of `inferSuccessColumn` is reproducible: on a
table with no keyword-matching column it resets the generator to the fixed
seed 42, so two runs started in arbitrary (distinct) generator states
produce the identical table, in particular bit-identical
`treatment_success_rate` sequences. -/
theorem inferSuccessColumn_deterministic (t : Table) (g g' : Gen)
    (hfind : (names t).find? matchesTreatmentKeyword = none) :
    (inferSuccessColumn t g).1 = (inferSuccessColumn t g').1 ∧
    getCol (inferSuccessColumn t g).1 "treatment_success_rate" =
      getCol (inferSuccessColumn t g').1 "treatment_success_rate" := by
  have h1 : (inferSuccessColumn t g).1 = (inferSuccessColumn t g').1 := by
    simp [inferSuccessColumn, hfind]
  exact ⟨h1, by rw [h1]⟩

/-- Witness for C5 at a concrete keyword-free table and two distinct
generator states. -/
theorem inferSuccessColumn_deterministic_witness :
    getCol (inferSuccessColumn ⟨[("id", [.num 1, .num 2])]⟩ ⟨3⟩).1 "treatment_success_rate" =
      getCol (inferSuccessColumn ⟨[("id", [.num 1, .num 2])]⟩ ⟨999⟩).1 "treatment_success_rate" :=
  (inferSuccessColumn_deterministic ⟨[("id", [.num 1, .num 2])]⟩ ⟨3⟩ ⟨999⟩ (by decide)).2

/-! ### C7: idempotence of the success inference -/

/-- C7: on a table whose first keyword-matching column is already named
`treatment_success_rate` (the shape a prior `inferSuccessColumn` run
produces), running `inferSuccessColumn` again changes nothing: the rename of
that column to its own name is the identity. -/
theorem inferSuccessColumn_idempotent (t : Table) (g : Gen)
    (hfind : (names t).find? matchesTreatmentKeyword = some "treatment_success_rate") :
    inferSuccessColumn t g = (t, g) := by
  simp [inferSuccessColumn, hfind, renameCols_self]

/-- Witness for C7 on a table already carrying the canonical column name. -/
theorem inferSuccessColumn_idempotent_witness :
    inferSuccessColumn ⟨[("id", [.num 1]), ("treatment_success_rate", [.num 80])]⟩ ⟨5⟩ =
      (⟨[("id", [.num 1]), ("treatment_success_rate", [.num 80])]⟩, ⟨5⟩) :=
  inferSuccessColumn_idempotent _ _ (by decide)

/-! ### Lemmas about column assignment and clamping -/

lemma find?_overwrite (name : String) (vs : List Value) :
    ∀ (l : List (String × List Value)), l.any (fun c => c.1 == name) = true →
      (l.map (fun c => if c.1 == name then (name, vs) else c)).find? (fun c => c.1 == name) =
        some (name, vs)
  | [], h => by simp at h
  | c :: l, h => by
    rcases hc : (c.1 == name) with _ | _
    · have hl : l.any (fun c => c.1 == name) = true := by simpa [hc] using h
      rw [List.map_cons, if_neg (by simp [hc]), List.find?_cons_of_neg _ (by simp [hc])]
      exact find?_overwrite name vs l hl
    · rw [List.map_cons, if_pos hc, List.find?_cons_of_pos _ (by simp)]

lemma find?_append_tail (name : String) (vs : List Value) :
    ∀ (l : List (String × List Value)), l.any (fun c => c.1 == name) = false →
      (l ++ [(name, vs)]).find? (fun c => c.1 == name) = some (name, vs)
  | [], _ => by simp [List.find?]
  | c :: l, h => by
    have hc : (c.1 == name) = false := by
      rcases hcb : (c.1 == name) with _ | _
      · rfl
      · simp [List.any_cons, hcb] at h
    rw [List.cons_append, List.find?_cons_of_neg _ (by simp [hc])]
    exact find?_append_tail name vs l (by simpa [hc] using h)

lemma getCol_setCol (t : Table) (name : String) (vs : List Value) :
    getCol (setCol t name vs) name = some vs := by
  by_cases hany : t.cols.any (fun c => c.1 == name) = true
  · rw [setCol, if_pos hany, getCol]
    rw [show (Table.mk (t.cols.map (fun c => if c.1 == name then (name, vs) else c))).cols =
        t.cols.map (fun c => if c.1 == name then (name, vs) else c) from rfl,
      find?_overwrite name vs t.cols hany]
    rfl
  · rw [setCol, if_neg hany, getCol]
    rw [show (Table.mk (t.cols ++ [(name, vs)])).cols = t.cols ++ [(name, vs)] from rfl,
      find?_append_tail name vs t.cols (Bool.eq_false_iff.mpr hany)]
    rfl

lemma clip_mem (x : ℚ) : 0 ≤ clip 0 100 x ∧ clip 0 100 x ≤ 100 :=
  ⟨le_max_left _ _, max_le (by norm_num) (min_le_left _ _)⟩

lemma numAtD_range (vs : List Value)
    (h : ∀ v ∈ vs, ∀ x, v = Value.num x → 0 ≤ x ∧ x ≤ 100) (j : ℕ) :
    0 ≤ numAtD vs j ∧ numAtD vs j ≤ 100 := by
  rcases lt_or_ge j vs.length with hj | hj
  · have hmem : vs.getD j .null ∈ vs := by
      rw [List.getD_eq_getElem _ _ hj]
      exact List.getElem_mem _
    rcases hv : vs.getD j .null with x | s | _
    · have := h _ (hv ▸ hmem) x rfl
      rw [numAtD, hv, valToNumD]
      exact this
    · rw [numAtD, hv, valToNumD]
      norm_num
    · rw [numAtD, hv, valToNumD]
      norm_num
  · rw [numAtD, List.getD_eq_default _ _ hj, valToNumD]
    norm_num

/-! ### Lemmas about all-null columns and the fill frame -/

lemma numsOf_allNull (vs : List Value) (h : ∀ v ∈ vs, v = Value.null) :
    numsOf vs = [] := by
  induction vs with
  | nil => rfl
  | cons v vs ih =>
    have hv := h v (by simp)
    subst hv
    rw [numsOf]
    exact ih (fun w hw => h w (by simp [hw]))

lemma isNumericCol_allNull (vs : List Value) (h : ∀ v ∈ vs, v = Value.null) :
    isNumericCol vs = true := by
  rw [isNumericCol, List.all_eq_true]
  intro v hv
  rw [h v hv]
  rfl

lemma fillCol_of_nil_nums (vs : List Value) (h : numsOf vs = []) : fillCol vs = vs := by
  rw [fillCol, h]
  rfl

lemma fill_numeric_countNulls (t : Table) (i : ℕ)
    (hnum : isNumericCol (colAt t i).2 = true) (hne : numsOf (colAt t i).2 ≠ []) :
    countNulls (colAt (fillNumericNulls t) i).2 = 0 := by
  rw [colAt_fillNumericNulls, if_pos hnum]
  rw [countNulls_eq_zero, fillCol_eq_map _ hne]
  intro v hv
  obtain ⟨w, _, rfl⟩ := List.mem_map.mp hv
  exact fillWith_isNull _ w

lemma names_fillNumericNulls (t : Table) : names (fillNumericNulls t) = names t := by
  simp only [names, fillNumericNulls, List.map_map]
  apply List.map_congr_left
  intro c _
  by_cases h : isNumericCol c.2 = true <;> simp [h]

lemma fillCol_getD_not_null (vs : List Value) (j : ℕ)
    (h : ((vs.getD j .null).isNull) = false) :
    (fillCol vs).getD j .null = vs.getD j .null := by
  rcases lt_or_ge j vs.length with hj | hj
  · rw [fillCol]
    cases hm : median (numsOf vs) with
    | none => rfl
    | some m =>
      rw [List.getD_eq_getElem _ _ (by simpa using hj), List.getElem_map,
        List.getD_eq_getElem _ _ hj]
      rw [List.getD_eq_getElem _ _ hj] at h
      exact fillWith_of_not_null _ _ h
  · rw [List.getD_eq_default _ _ (by simpa [fillCol_length] using hj),
      List.getD_eq_default _ _ hj]

/-! ### C4: dropout derivation is clamped to the unit interval of rates -/

/-- C4: a successful `deriveDropoutColumn` run (which the pipeline performs
after the success column is resolved) reads the `treatment_success_rate`
column, draws one uniform noise value in `[-5, 5]` per row, stores
`clip 0 100 (100 - success + noise)` per cell, and consequently every
numeric `dropout_rate` value of the output lies in `[0, 100]` — in
particular for any success value in `[0, 100]` and any noise draw. -/
theorem deriveDropoutColumn_range (t : Table) (g : Gen)
    (hok : isOkE (deriveDropoutColumn t g) = true) :
    ∃ (vs : List Value) (noise : List ℚ),
      getCol t "treatment_success_rate" = some vs ∧
      noise.length = nrows t ∧
      (∀ x ∈ noise, -5 ≤ x ∧ x ≤ 5) ∧
      getCol (okTable (deriveDropoutColumn t g)) "dropout_rate" =
        some ((vs.zip noise).map (fun q =>
          match q.1 with
          | .num x => Value.num (clip 0 100 (100 - x + q.2))
          | .str _ => Value.null
          | .null => Value.null)) ∧
      (∀ j : ℕ, 0 ≤ numAtD (dropoutValsOf (deriveDropoutColumn t g)) j ∧
        numAtD (dropoutValsOf (deriveDropoutColumn t g)) j ≤ 100) := by
  cases hcol : getCol t "treatment_success_rate" with
  | none =>
    rw [deriveDropoutColumn, hcol] at hok
    exact absurd hok (by simp [isOkE])
  | some vs =>
    by_cases hstr : vs.any Value.isStr = true
    · rw [deriveDropoutColumn, hcol] at hok
      simp only [hstr, if_true] at hok
      exact absurd hok (by simp [isOkE])
    · have hout : deriveDropoutColumn t g =
          .ok (setCol t "dropout_rate" ((vs.zip (uniformN (-5) 5 (nrows t) g).1).map (fun q =>
            match q.1 with
            | .num x => Value.num (clip 0 100 (100 - x + q.2))
            | .str _ => Value.null
            | .null => Value.null)), (uniformN (-5) 5 (nrows t) g).2) := by
        rw [deriveDropoutColumn, hcol]
        simp only [hstr, if_false, Bool.false_eq_true]
      have hget : getCol (okTable (deriveDropoutColumn t g)) "dropout_rate" =
          some ((vs.zip (uniformN (-5) 5 (nrows t) g).1).map (fun q =>
            match q.1 with
            | .num x => Value.num (clip 0 100 (100 - x + q.2))
            | .str _ => Value.null
            | .null => Value.null)) := by
        rw [hout, okTable, getCol_setCol]
      refine ⟨vs, (uniformN (-5) 5 (nrows t) g).1, rfl, uniformN_length _ _ _ _, ?_, hget, ?_⟩
      · intro x hx
        have := uniformN_mem (-5) 5 (by norm_num) (nrows t) g x hx
        exact ⟨this.1, le_of_lt this.2⟩
      · intro j
        apply numAtD_range
        rw [dropoutValsOf, hget, Option.getD_some]
        intro v hv x hx
        obtain ⟨q, _, rfl⟩ := List.mem_map.mp hv
        rcases hq : q.1 with y | s | _ <;> rw [hq] at hx
        · simp only [Value.num.injEq] at hx
          rw [← hx]
          exact clip_mem _
        · exact absurd hx (by simp)
        · exact absurd hx (by simp)

/-- Witness for C4 at a one-row table whose success value is 50. -/
theorem deriveDropoutColumn_range_witness :
    isOkE (deriveDropoutColumn ⟨[("treatment_success_rate", [.num 50])]⟩ ⟨0⟩) = true ∧
    0 ≤ numAtD (dropoutValsOf
        (deriveDropoutColumn ⟨[("treatment_success_rate", [.num 50])]⟩ ⟨0⟩)) 0 ∧
    numAtD (dropoutValsOf
        (deriveDropoutColumn ⟨[("treatment_success_rate", [.num 50])]⟩ ⟨0⟩)) 0 ≤ 100 := by
  have hok : isOkE (deriveDropoutColumn ⟨[("treatment_success_rate", [.num 50])]⟩ ⟨0⟩) = true := by
    decide
  obtain ⟨vs, noise, h1, h2, h3, h4, h5⟩ :=
    deriveDropoutColumn_range ⟨[("treatment_success_rate", [.num 50])]⟩ ⟨0⟩ hok
  exact ⟨hok, (h5 0).1, (h5 0).2⟩

/-! ### C8: an entirely-null numeric column is advisory, not fatal -/

/-- C8: on a numeric column whose cells are all null the median is undefined
(`NaN`), the `fillna` is a no-op, so `fillNumericNulls` leaves the column —
nulls included — exactly in place; the stage is a total function (no abort)
and every other numeric column with at least one non-null value is still
filled to zero nulls as usual. -/
theorem fillNumericNulls_allNull (t : Table) (i : ℕ)
    (hall : ∀ v ∈ (colAt t i).2, v = Value.null) :
    colAt (fillNumericNulls t) i = colAt t i ∧
    countNulls (colAt (fillNumericNulls t) i).2 = countNulls (colAt t i).2 ∧
    (∀ j, isNumericCol (colAt t j).2 = true → numsOf (colAt t j).2 ≠ [] →
      countNulls (colAt (fillNumericNulls t) j).2 = 0) := by
  have hsame : colAt (fillNumericNulls t) i = colAt t i := by
    rw [colAt_fillNumericNulls, if_pos (isNumericCol_allNull _ hall),
      fillCol_of_nil_nums _ (numsOf_allNull _ hall)]
  exact ⟨hsame, by rw [hsame], fun j => fill_numeric_countNulls t j⟩

/-- Witness for C8: a two-column table whose first column is entirely null;
its two nulls survive, the other column is filled to zero nulls. -/
theorem fillNumericNulls_allNull_witness :
    colAt (fillNumericNulls ⟨[("empty_num", [.null, .null]), ("id", [.num 1, .null])]⟩) 0 =
      colAt (⟨[("empty_num", [.null, .null]), ("id", [.num 1, .null])]⟩ : Table) 0 ∧
    countNulls (colAt (fillNumericNulls
      ⟨[("empty_num", [.null, .null]), ("id", [.num 1, .null])]⟩) 1).2 = 0 := by
  have h := fillNumericNulls_allNull
    ⟨[("empty_num", [.null, .null]), ("id", [.num 1, .null])]⟩ 0 (by decide)
  exact ⟨h.1, h.2.2 1 (by decide) (by decide)⟩

/-! ### C9: the fill stage only touches null cells of numeric columns -/

/-- C9: `fillNumericNulls` is a frame-preserving per-column map: column
names and their order are unchanged, the column count and every column's
cell count are unchanged, non-numeric columns are untouched, and every
non-null cell of every column keeps its exact value — only null cells of
numeric columns can change. -/
theorem fillNumericNulls_frame (t : Table) :
    names (fillNumericNulls t) = names t ∧
    (fillNumericNulls t).cols.length = t.cols.length ∧
    (∀ i, ((colAt (fillNumericNulls t) i).2).length = ((colAt t i).2).length) ∧
    (∀ i, isNumericCol (colAt t i).2 = false → colAt (fillNumericNulls t) i = colAt t i) ∧
    (∀ i j, ((colAt t i).2.getD j .null).isNull = false →
      (colAt (fillNumericNulls t) i).2.getD j .null = (colAt t i).2.getD j .null) := by
  refine ⟨names_fillNumericNulls t, by simp [fillNumericNulls], ?_, ?_, ?_⟩
  · intro i
    rw [colAt_fillNumericNulls]
    by_cases h : isNumericCol (colAt t i).2 = true
    · rw [if_pos h]
      exact fillCol_length _
    · rw [if_neg h]
  · intro i h
    rw [colAt_fillNumericNulls, if_neg (by simp [h])]
  · intro i j h
    rw [colAt_fillNumericNulls]
    by_cases hn : isNumericCol (colAt t i).2 = true
    · rw [if_pos hn]
      exact fillCol_getD_not_null _ _ h
    · rw [if_neg hn]

/-- Witness for C9 on the §8 scenario table: names unchanged and the
non-null cell `50` of the `outcome_rate` column survives the fill. -/
theorem fillNumericNulls_frame_witness :
    names (fillNumericNulls scenarioMedianTable) = names scenarioMedianTable ∧
    (colAt (fillNumericNulls scenarioMedianTable) 1).2.getD 1 .null =
      (colAt scenarioMedianTable 1).2.getD 1 .null := by
  have h := fillNumericNulls_frame scenarioMedianTable
  exact ⟨h.1, h.2.2.2.2 1 1 (by decide)⟩

/-! ### Shape lemmas: each stage keeps rows and the layout of old columns -/

lemma nrows_mk_map (f : (String × List Value) → (String × List Value))
    (hf : ∀ c, ((f c).2).length = c.2.length) (t : Table) :
    nrows ⟨t.cols.map f⟩ = nrows t := by
  obtain ⟨cols⟩ := t
  cases cols with
  | nil => rfl
  | cons c l => exact hf c

lemma Rect_mk_map (f : (String × List Value) → (String × List Value))
    (hf : ∀ c, ((f c).2).length = c.2.length) (t : Table) (hrect : Rect t) :
    Rect ⟨t.cols.map f⟩ := by
  intro c hc
  obtain ⟨c0, hc0, rfl⟩ := List.mem_map.mp hc
  rw [hf c0, nrows_mk_map f hf t]
  exact hrect c0 hc0

lemma renameCols_len (old nw : String) (c : String × List Value) :
    (((if c.1 == old then (nw, c.2) else c) : String × List Value).2).length = c.2.length := by
  by_cases h : (c.1 == old) = true
  · rw [if_pos h]
  · rw [if_neg h]

lemma nrows_renameCols (t : Table) (old nw : String) :
    nrows (renameCols t old nw) = nrows t :=
  nrows_mk_map _ (renameCols_len old nw) t

lemma Rect_renameCols (t : Table) (old nw : String) (hrect : Rect t) :
    Rect (renameCols t old nw) :=
  Rect_mk_map _ (renameCols_len old nw) t hrect

lemma fillNumericNulls_len (c : String × List Value) :
    (((if isNumericCol c.2 then (c.1, fillCol c.2) else c) : String × List Value).2).length =
      c.2.length := by
  by_cases h : isNumericCol c.2 = true
  · rw [if_pos h]
    exact fillCol_length _
  · rw [if_neg h]

lemma nrows_fillNumericNulls (t : Table) : nrows (fillNumericNulls t) = nrows t :=
  nrows_mk_map _ fillNumericNulls_len t

lemma Rect_fillNumericNulls (t : Table) (hrect : Rect t) : Rect (fillNumericNulls t) :=
  Rect_mk_map _ fillNumericNulls_len t hrect

lemma names_setCol_or (t : Table) (name : String) (vs : List Value) :
    names (setCol t name vs) = names t ∨ names (setCol t name vs) = names t ++ [name] := by
  by_cases hany : t.cols.any (fun c => c.1 == name) = true
  · left
    rw [setCol, if_pos hany]
    show (t.cols.map _).map Prod.fst = names t
    rw [List.map_map, names]
    apply List.map_congr_left
    intro c _
    by_cases h : c.1 = name
    · simp [Function.comp, h]
    · simp [Function.comp, h]
  · right
    rw [setCol, if_neg hany]
    simp [names]

lemma nrows_setCol (t : Table) (name : String) (vs : List Value)
    (hlen : vs.length = nrows t) (hrect : Rect t) :
    nrows (setCol t name vs) = nrows t := by
  by_cases hany : t.cols.any (fun c => c.1 == name) = true
  · rw [setCol, if_pos hany]
    cases hc : t.cols with
    | nil => simp [nrows, hc]
    | cons c l =>
      have hclen : c.2.length = nrows t := hrect c (by rw [hc]; simp)
      show (if c.1 == name then (name, vs) else c).2.length = nrows t
      by_cases h : (c.1 == name) = true
      · rw [if_pos h]
        exact hlen
      · rw [if_neg h]
        exact hclen
  · rw [setCol, if_neg hany]
    cases hc : t.cols with
    | nil => simpa [nrows, hc] using hlen
    | cons c l =>
      have hclen : c.2.length = nrows t := hrect c (by rw [hc]; simp)
      exact hclen

lemma Rect_setCol (t : Table) (name : String) (vs : List Value)
    (hlen : vs.length = nrows t) (hrect : Rect t) :
    Rect (setCol t name vs) := by
  intro c hc
  rw [nrows_setCol t name vs hlen hrect]
  by_cases hany : t.cols.any (fun c => c.1 == name) = true
  · rw [setCol, if_pos hany] at hc
    obtain ⟨c0, hc0, rfl⟩ := List.mem_map.mp hc
    by_cases h : (c0.1 == name) = true
    · rw [if_pos h]
      exact hlen
    · rw [if_neg h]
      exact hrect c0 hc0
  · rw [setCol, if_neg hany] at hc
    rcases List.mem_append.mp hc with hc1 | hc2
    · exact hrect c hc1
    · rw [List.mem_singleton.mp hc2]
      exact hlen

lemma getCol_length (t : Table) (name : String) (vs : List Value)
    (h : getCol t name = some vs) (hrect : Rect t) : vs.length = nrows t := by
  rw [getCol] at h
  cases hf : t.cols.find? (fun c => c.1 == name) with
  | none =>
    rw [hf] at h
    exact absurd h (by simp)
  | some c =>
    rw [hf] at h
    obtain rfl : c.2 = vs := by simpa using h
    exact hrect c (List.mem_of_find?_eq_some hf)

lemma not_named_of_find_none (t : Table) (p : String → Bool) (name : String)
    (hfind : (names t).find? p = none) (hname : p name = true) :
    ∀ c ∈ t.cols, (c.1 == name) = false := by
  intro c hc
  rcases hb : (c.1 == name) with _ | _
  · rfl
  · have heq : c.1 = name := by simpa using hb
    have hm := List.find?_eq_none.mp hfind c.1 (List.mem_map_of_mem Prod.fst hc)
    rw [heq, hname] at hm
    exact absurd rfl hm

/-! ### C10: stages after the row drop keep rows and never displace columns -/

/-- C10: every stage after `dropEmptyRows` preserves the row count and the
layout of pre-existing columns on any rectangular table: `fillNumericNulls`
keeps the names exactly; `inferSuccessColumn` either renames in place (the
name list is a pointwise rename) or appends `treatment_success_rate` at the
end; a successful `deriveDropoutColumn` keeps the name list or appends
`dropout_rate` at the end; `inferYearColumn` keeps the names, renames in
place, or appends `year` at the end.  All four keep rectangularity and the
row count. -/
theorem stagesPreserveShape (t : Table) (g : Gen) (hrect : Rect t) :
    (names (fillNumericNulls t) = names t ∧ Rect (fillNumericNulls t) ∧
      nrows (fillNumericNulls t) = nrows t) ∧
    (((∃ c, names (inferSuccessColumn t g).1 =
        (names t).map (fun n => if n == c then "treatment_success_rate" else n)) ∨
      names (inferSuccessColumn t g).1 = names t ++ ["treatment_success_rate"]) ∧
      Rect (inferSuccessColumn t g).1 ∧ nrows (inferSuccessColumn t g).1 = nrows t) ∧
    (∀ p, deriveDropoutColumn t g = .ok p →
      (names p.1 = names t ∨ names p.1 = names t ++ ["dropout_rate"]) ∧
      Rect p.1 ∧ nrows p.1 = nrows t) ∧
    ((names (inferYearColumn t g).1 = names t ∨
      (∃ c, names (inferYearColumn t g).1 =
        (names t).map (fun n => if n == c then "year" else n)) ∨
      names (inferYearColumn t g).1 = names t ++ ["year"]) ∧
      Rect (inferYearColumn t g).1 ∧ nrows (inferYearColumn t g).1 = nrows t) := by
  refine ⟨⟨names_fillNumericNulls t, Rect_fillNumericNulls t hrect,
    nrows_fillNumericNulls t⟩, ?_, ?_, ?_⟩
  · cases hfind : (names t).find? matchesTreatmentKeyword with
    | some c =>
      have hout : inferSuccessColumn t g = (renameCols t c "treatment_success_rate", g) := by
        rw [inferSuccessColumn, hfind]
      rw [hout]
      exact ⟨Or.inl ⟨c, names_renameCols t c _⟩, Rect_renameCols t c _ hrect,
        nrows_renameCols t c _⟩
    | none =>
      have hvals : ((uniformN 70 95 (nrows t) (seedGen 42)).1.map Value.num).length = nrows t := by
        rw [List.length_map, uniformN_length]
      have hout : inferSuccessColumn t g =
          (setCol t "treatment_success_rate"
            ((uniformN 70 95 (nrows t) (seedGen 42)).1.map Value.num),
           (uniformN 70 95 (nrows t) (seedGen 42)).2) := by
        rw [inferSuccessColumn, hfind]
      rw [hout]
      refine ⟨Or.inr ?_, Rect_setCol t _ _ hvals hrect, nrows_setCol t _ _ hvals hrect⟩
      rw [setCol_append t _ _
        (not_named_of_find_none t matchesTreatmentKeyword _ hfind (by decide))]
      simp [names]
  · intro p hok
    cases hcol : getCol t "treatment_success_rate" with
    | none =>
      rw [deriveDropoutColumn, hcol] at hok
      exact absurd hok (by simp)
    | some vs =>
      by_cases hstr : vs.any Value.isStr = true
      · rw [deriveDropoutColumn, hcol] at hok
        simp only [hstr, if_true] at hok
        exact absurd hok (by simp)
      · have hvlen : vs.length = nrows t := getCol_length t _ vs hcol hrect
        have hdlen : ((vs.zip (uniformN (-5) 5 (nrows t) g).1).map (fun q =>
            match q.1 with
            | .num x => Value.num (clip 0 100 (100 - x + q.2))
            | .str _ => Value.null
            | .null => Value.null)).length = nrows t := by
          rw [List.length_map, List.length_zip, hvlen, uniformN_length, min_self]
        have hout : deriveDropoutColumn t g =
            .ok (setCol t "dropout_rate" ((vs.zip (uniformN (-5) 5 (nrows t) g).1).map (fun q =>
              match q.1 with
              | .num x => Value.num (clip 0 100 (100 - x + q.2))
              | .str _ => Value.null
              | .null => Value.null)), (uniformN (-5) 5 (nrows t) g).2) := by
          rw [deriveDropoutColumn, hcol]
          simp only [hstr, if_false, Bool.false_eq_true]
        rw [hout] at hok
        obtain rfl : p = (setCol t "dropout_rate" _, _) := (Except.ok.inj hok).symm
        exact ⟨names_setCol_or t _ _, Rect_setCol t _ _ hdlen hrect,
          nrows_setCol t _ _ hdlen hrect⟩
  · by_cases hyear : ((names t).any (fun n => n == "year")) = true
    · have hout : inferYearColumn t g = (t, g) := by
        rw [inferYearColumn, if_pos hyear]
      rw [hout]
      exact ⟨Or.inl rfl, hrect, rfl⟩
    · cases hfind : (names t).find? matchesYearKeyword with
      | some c =>
        have hout : inferYearColumn t g = (renameCols t c "year", g) := by
          rw [inferYearColumn, if_neg hyear, hfind]
        rw [hout]
        exact ⟨Or.inr (Or.inl ⟨c, names_renameCols t c _⟩), Rect_renameCols t c _ hrect,
          nrows_renameCols t c _⟩
      | none =>
        have hvals : ((choiceN 2010 2023 (nrows t) g).1.map
            (fun y => Value.num (Int.cast y))).length = nrows t := by
          rw [List.length_map, choiceN_length]
        have hout : inferYearColumn t g =
            (setCol t "year" ((choiceN 2010 2023 (nrows t) g).1.map
              (fun y => Value.num (Int.cast y))),
             (choiceN 2010 2023 (nrows t) g).2) := by
          rw [inferYearColumn, if_neg hyear, hfind]
        rw [hout]
        refine ⟨Or.inr (Or.inr ?_), Rect_setCol t _ _ hvals hrect,
          nrows_setCol t _ _ hvals hrect⟩
        rw [setCol_append t _ _
          (not_named_of_find_none t matchesYearKeyword _ hfind (by decide))]
        simp [names]

/-- Witness for C10 on the §8 scenario table: the fill keeps the names and
the success stage keeps the row count. -/
theorem stagesPreserveShape_witness :
    names (fillNumericNulls scenarioMedianTable) = names scenarioMedianTable ∧
    nrows (inferSuccessColumn scenarioMedianTable ⟨0⟩).1 = nrows scenarioMedianTable := by
  have h := stagesPreserveShape scenarioMedianTable ⟨0⟩ (by unfold Rect; decide)
  exact ⟨h.1.1, h.2.1.2.2⟩

/-! ### Lemmas about the row drop and column lookups across stages -/

lemma names_dropEmptyRows (t : Table) : names (dropEmptyRows t) = names t := by
  simp [names, dropEmptyRows, List.map_map, Function.comp]

lemma Rect_dropEmptyRows (t : Table) : Rect (dropEmptyRows t) := by
  intro c hc
  obtain ⟨c0, hc0, rfl⟩ := List.mem_map.mp hc
  obtain ⟨cols⟩ := t
  cases cols with
  | nil => simp at hc0
  | cons c1 l => simp [dropEmptyRows, nrows]

lemma dropEmptyRows_no_empty (t : Table) :
    ∀ i, i < nrows (dropEmptyRows t) → rowAllNull (dropEmptyRows t) i = false := by
  intro i hi
  obtain ⟨cols⟩ := t
  cases hl : cols with
  | nil =>
    subst hl
    simp [dropEmptyRows, nrows] at hi
  | cons c1 l =>
    subst hl
    have hlen : i < (keptRows ⟨c1 :: l⟩).length := by
      simpa [dropEmptyRows, nrows] using hi
    have hk : (keptRows ⟨c1 :: l⟩).getD i 0 ∈ keptRows ⟨c1 :: l⟩ := by
      rw [List.getD_eq_getElem _ _ hlen]
      exact List.getElem_mem _
    have hkf : rowAllNull ⟨c1 :: l⟩ ((keptRows ⟨c1 :: l⟩).getD i 0) = false := by
      have := List.of_mem_filter hk
      simpa using this
    rw [rowAllNull, List.all_eq_false]
    rw [rowAllNull, List.all_eq_false] at hkf
    obtain ⟨c, hcmem, hcnull⟩ := hkf
    refine ⟨(c.1, (keptRows ⟨c1 :: l⟩).map (fun j => c.2.getD j .null)), ?_, ?_⟩
    · exact List.mem_map_of_mem _ hcmem
    · show ¬ ((((keptRows ⟨c1 :: l⟩).map (fun j => c.2.getD j .null)).getD i .null).isNull = true)
      rw [List.getD_eq_getElem _ _ (by simpa using hlen), List.getElem_map,
        ← List.getD_eq_getElem _ 0 hlen]
      exact hcnull

lemma find?_map_invariant {α : Type} (f : α → α) (p : α → Bool)
    (h1 : ∀ c, p (f c) = p c) (h2 : ∀ c, p c = true → f c = c) :
    ∀ l : List α, (l.map f).find? p = l.find? p
  | [] => rfl
  | a :: l => by
    rcases ha : p a with _ | _
    · rw [List.map_cons, List.find?_cons_of_neg _ (by simp [h1, ha]),
        List.find?_cons_of_neg _ (by simp [ha])]
      exact find?_map_invariant f p h1 h2 l
    · rw [List.map_cons, List.find?_cons_of_pos _ (by simp [h1, ha]),
        List.find?_cons_of_pos _ ha, h2 a ha]

lemma find?_append_singleton_ne {α : Type} (p : α → Bool) (x : α) (hx : p x = false) :
    ∀ l : List α, (l ++ [x]).find? p = l.find? p
  | [] => by simp [List.find?, hx]
  | a :: l => by
    rcases ha : p a with _ | _
    · rw [List.cons_append, List.find?_cons_of_neg _ (by simp [ha]),
        List.find?_cons_of_neg _ (by simp [ha])]
      exact find?_append_singleton_ne p x hx l
    · rw [List.cons_append, List.find?_cons_of_pos _ ha, List.find?_cons_of_pos _ ha]

lemma getCol_setCol_other (t : Table) (n : String) (vs : List Value) (m : String)
    (hmn : m ≠ n) :
    getCol (setCol t n vs) m = getCol t m := by
  by_cases hany : t.cols.any (fun c => c.1 == n) = true
  · rw [setCol, if_pos hany, getCol, getCol]
    congr 1
    refine find?_map_invariant _ _ ?_ ?_ t.cols
    · intro c
      by_cases h : (c.1 == n) = true
      · rw [if_pos h]
        have hc1 : c.1 = n := by simpa using h
        show ((n == m) = (c.1 == m))
        rw [hc1]
      · rw [if_neg h]
    · intro c hc
      have hc1 : c.1 = m := by simpa using hc
      rw [if_neg (by simp [hc1, hmn])]
  · rw [setCol, if_neg hany, getCol, getCol]
    congr 1
    refine find?_append_singleton_ne _ _ ?_ t.cols
    show (n == m) = false
    exact beq_eq_false_iff_ne.mpr (Ne.symm hmn)

lemma mem_names_setCol_self (t : Table) (n : String) (vs : List Value) :
    n ∈ names (setCol t n vs) := by
  by_cases hany : t.cols.any (fun c => c.1 == n) = true
  · obtain ⟨c, hc, hcn⟩ := List.any_eq_true.mp hany
    rw [setCol, if_pos hany]
    have : (n, vs) ∈ t.cols.map (fun c => if c.1 == n then (n, vs) else c) := by
      refine List.mem_map.mpr ⟨c, hc, ?_⟩
      rw [if_pos hcn]
    exact List.mem_map.mpr ⟨(n, vs), this, rfl⟩
  · rw [setCol, if_neg hany]
    show n ∈ (t.cols ++ [(n, vs)]).map Prod.fst
    simp

lemma mem_names_setCol_mono (t : Table) (n : String) (vs : List Value) (m : String)
    (hm : m ∈ names t) :
    m ∈ names (setCol t n vs) := by
  by_cases hmn : m = n
  · rw [hmn]
    exact mem_names_setCol_self t n vs
  · obtain ⟨c, hc, rfl⟩ := List.mem_map.mp hm
    by_cases hany : t.cols.any (fun c => c.1 == n) = true
    · rw [setCol, if_pos hany]
      have hcn : (c.1 == n) = false := by
        rcases h : (c.1 == n) with _ | _
        · rfl
        · exact absurd (by simpa using h) hmn
      refine List.mem_map.mpr ⟨if c.1 == n then (n, vs) else c, List.mem_map.mpr ⟨c, hc, rfl⟩, ?_⟩
      rw [if_neg (by simp [hcn])]
    · rw [setCol, if_neg hany]
      show c.1 ∈ (t.cols ++ [(n, vs)]).map Prod.fst
      rw [List.map_append]
      exact List.mem_append_left _ (List.mem_map_of_mem _ hc)

lemma getCol_of_mem_names (t : Table) (m : String) (hm : m ∈ names t) :
    ∃ vs, getCol t m = some vs := by
  obtain ⟨c, hc, rfl⟩ := List.mem_map.mp hm
  rw [getCol]
  cases hf : t.cols.find? (fun cc => cc.1 == c.1) with
  | none =>
    have := List.find?_eq_none.mp hf c hc
    simp at this
  | some c0 => exact ⟨c0.2, rfl⟩

lemma num_mem_numsOf (q : ℚ) : ∀ vs : List Value, Value.num q ∈ vs → q ∈ numsOf vs
  | [], h => by simp at h
  | v :: vs, h => by
    rcases List.mem_cons.mp h with rfl | h2
    · rw [numsOf]
      simp
    · cases v with
      | num r =>
        rw [numsOf]
        exact List.mem_cons_of_mem _ (num_mem_numsOf q vs h2)
      | str s =>
        rw [numsOf]
        exact num_mem_numsOf q vs h2
      | null =>
        rw [numsOf]
        exact num_mem_numsOf q vs h2

lemma allNull_of_numeric_no_nums (vs : List Value)
    (hnum : isNumericCol vs = true) (hnil : numsOf vs = []) :
    ∀ v ∈ vs, v = Value.null := by
  intro v hv
  cases v with
  | num q =>
    have := num_mem_numsOf q vs hv
    rw [hnil] at this
    simp at this
  | str s =>
    rw [isNumericCol, List.all_eq_true] at hnum
    have := hnum _ hv
    simp [Value.isStr] at this
  | null => rfl

lemma any_isStr_map_num (qs : List ℚ) : ((qs.map Value.num).any Value.isStr) = false := by
  rw [List.any_eq_false]
  intro v hv
  obtain ⟨q, _, rfl⟩ := List.mem_map.mp hv
  simp [Value.isStr]

/-! ### The all-synthetic pipeline path -/

/-- On a rectangular table with no treatment-keyword column and no
year/date column, the pipeline succeeds and appends synthetic
`treatment_success_rate` (uniform in `[70, 95]`) and `year` (integers in
`[2010, 2023]`) columns, one value per row. -/
lemma cleanPipeline_synthetic (t : Table) (g : Gen)
    (hkw : ∀ n ∈ names t, matchesTreatmentKeyword n = false)
    (hyr : ∀ n ∈ names t, matchesYearKeyword n = false) :
    ∃ (qs : List ℚ) (zs : List ℤ) (p : Table × Gen),
      cleanPipeline t g = .ok p ∧
      qs.length = nrows (dropEmptyRows t) ∧
      zs.length = nrows (dropEmptyRows t) ∧
      nrows p.1 = nrows (dropEmptyRows t) ∧
      (∀ q ∈ qs, 70 ≤ q ∧ q ≤ 95) ∧
      (∀ z ∈ zs, 2010 ≤ z ∧ z ≤ 2023) ∧
      getCol p.1 "treatment_success_rate" = some (qs.map Value.num) ∧
      getCol p.1 "year" = some (zs.map (fun y => Value.num (Int.cast y))) := by
  obtain ⟨t1, ht1⟩ : ∃ x, dropEmptyRows t = x := ⟨_, rfl⟩
  rw [ht1]
  obtain ⟨t2, ht2⟩ : ∃ x, fillNumericNulls t1 = x := ⟨_, rfl⟩
  have hrect1 : Rect t1 := ht1 ▸ Rect_dropEmptyRows t
  have hrect2 : Rect t2 := ht2 ▸ Rect_fillNumericNulls t1 hrect1
  have hnames1 : names t1 = names t := ht1 ▸ names_dropEmptyRows t
  have hnames2 : names t2 = names t := by
    rw [← ht2, names_fillNumericNulls, hnames1]
  have hn2 : nrows t2 = nrows t1 := by
    rw [← ht2, nrows_fillNumericNulls]
  have hkw2 : ∀ n ∈ names t2, matchesTreatmentKeyword n = false := by
    rw [hnames2]
    exact hkw
  have hfind : (names t2).find? matchesTreatmentKeyword = none :=
    List.find?_eq_none.mpr (fun n hn => by simp [hkw2 n hn])
  obtain ⟨sv, g3, hsv⟩ : ∃ a b, uniformN 70 95 (nrows t2) (seedGen 42) = (a, b) := ⟨_, _, rfl⟩
  have hsvlen : sv.length = nrows t2 := by
    have h := uniformN_length 70 95 (nrows t2) (seedGen 42)
    rw [hsv] at h
    exact h
  have hsvmem : ∀ q ∈ sv, 70 ≤ q ∧ q < 95 := fun q hq =>
    uniformN_mem 70 95 (by norm_num) (nrows t2) (seedGen 42) q (by rw [hsv]; exact hq)
  obtain ⟨t3, ht3⟩ : ∃ x, setCol t2 "treatment_success_rate" (sv.map Value.num) = x := ⟨_, rfl⟩
  have hinfer : inferSuccessColumn t2 g = (t3, g3) := by
    rw [inferSuccessColumn, hfind, hsv]
    show (setCol t2 "treatment_success_rate" (sv.map Value.num), g3) = (t3, g3)
    rw [ht3]
  have hmap_len : (sv.map Value.num).length = nrows t2 := by
    rw [List.length_map, hsvlen]
  have hrect3 : Rect t3 := ht3 ▸ Rect_setCol t2 _ _ hmap_len hrect2
  have hn3 : nrows t3 = nrows t2 := by
    rw [← ht3]
    exact nrows_setCol t2 _ _ hmap_len hrect2
  have hget3 : getCol t3 "treatment_success_rate" = some (sv.map Value.num) := by
    rw [← ht3]
    exact getCol_setCol t2 _ _
  have htsr_notin2 : ∀ c ∈ t2.cols, (c.1 == "treatment_success_rate") = false :=
    not_named_of_find_none t2 matchesTreatmentKeyword _ hfind (by decide)
  have hcols3 : t3.cols = t2.cols ++ [("treatment_success_rate", sv.map Value.num)] := by
    rw [← ht3, setCol_append t2 _ _ htsr_notin2]
  obtain ⟨noise, g4, hnoise⟩ : ∃ a b, uniformN (-5) 5 (nrows t3) g3 = (a, b) := ⟨_, _, rfl⟩
  have hnl : noise.length = nrows t3 := by
    have h := uniformN_length (-5) 5 (nrows t3) g3
    rw [hnoise] at h
    exact h
  obtain ⟨ds, hds⟩ : ∃ x, ((sv.map Value.num).zip noise).map (fun q =>
      match q.1 with
      | .num x => Value.num (clip 0 100 (100 - x + q.2))
      | .str _ => Value.null
      | .null => Value.null) = x := ⟨_, rfl⟩
  have hstr3 : ((sv.map Value.num).any Value.isStr) = false := any_isStr_map_num sv
  have hdrop : deriveDropoutColumn t3 g3 = .ok (setCol t3 "dropout_rate" ds, g4) := by
    rw [deriveDropoutColumn, hget3]
    simp only [hstr3, Bool.false_eq_true, if_false]
    rw [hnoise]
    show Except.ok (setCol t3 "dropout_rate" (((sv.map Value.num).zip noise).map (fun q =>
      match q.1 with
      | .num x => Value.num (clip 0 100 (100 - x + q.2))
      | .str _ => Value.null
      | .null => Value.null)), g4) = _
    rw [hds]
  obtain ⟨t4, ht4⟩ : ∃ x, setCol t3 "dropout_rate" ds = x := ⟨_, rfl⟩
  have hds_len : ds.length = nrows t3 := by
    rw [← hds, List.length_map, List.length_zip, List.length_map, hsvlen, hnl, ← hn3, min_self]
  have hrect4 : Rect t4 := ht4 ▸ Rect_setCol t3 _ _ hds_len hrect3
  have hn4 : nrows t4 = nrows t3 := by
    rw [← ht4]
    exact nrows_setCol t3 _ _ hds_len hrect3
  have hdr_notin3 : ∀ c ∈ t3.cols, (c.1 == "dropout_rate") = false := by
    intro c hc
    rw [hcols3] at hc
    rcases List.mem_append.mp hc with hc2 | hc2
    · rcases hb : (c.1 == "dropout_rate") with _ | _
      · rfl
      · exfalso
        have heq : c.1 = "dropout_rate" := by simpa using hb
        have hcn : c.1 ∈ names t2 := List.mem_map_of_mem _ hc2
        rw [hnames2] at hcn
        have hk := hkw c.1 hcn
        rw [heq] at hk
        exact absurd hk (by decide)
    · rw [List.mem_singleton.mp hc2]
      show ("treatment_success_rate" == "dropout_rate") = false
      decide
  have hcols4 : t4.cols = t3.cols ++ [("dropout_rate", ds)] := by
    rw [← ht4, setCol_append t3 _ _ hdr_notin3]
  have hnames3 : names t3 = names t ++ ["treatment_success_rate"] := by
    show t3.cols.map Prod.fst = _
    rw [hcols3, List.map_append]
    show names t2 ++ ["treatment_success_rate"] = _
    rw [hnames2]
  have hnames4 : names t4 = names t ++ ["treatment_success_rate", "dropout_rate"] := by
    show t4.cols.map Prod.fst = _
    rw [hcols4, List.map_append]
    show names t3 ++ ["dropout_rate"] = _
    rw [hnames3, List.append_assoc]
    rfl
  have hyany : ((names t4).any (fun n => n == "year")) = false := by
    rw [List.any_eq_false]
    intro n hn
    intro hb
    have hne : n = "year" := by simpa using hb
    rw [hnames4] at hn
    rcases List.mem_append.mp hn with h1 | h2
    · have hk := hyr n h1
      rw [hne] at hk
      exact absurd hk (by decide)
    · rcases List.mem_cons.mp h2 with rfl | h3
      · exact absurd hne (by decide)
      · rw [List.mem_singleton.mp h3] at hne
        exact absurd hne (by decide)
  have hyfind : (names t4).find? matchesYearKeyword = none := by
    rw [List.find?_eq_none]
    intro n hn
    intro hb
    rw [hnames4] at hn
    rcases List.mem_append.mp hn with h1 | h2
    · have hk := hyr n h1
      rw [hk] at hb
      exact Bool.false_ne_true hb
    · rcases List.mem_cons.mp h2 with rfl | h3
      · exact absurd hb (by decide)
      · rw [List.mem_singleton.mp h3] at hb
        exact absurd hb (by decide)
  obtain ⟨ys, g5, hys⟩ : ∃ a b, choiceN 2010 2023 (nrows t4) g4 = (a, b) := ⟨_, _, rfl⟩
  have hyslen : ys.length = nrows t4 := by
    have h := choiceN_length 2010 2023 (nrows t4) g4
    rw [hys] at h
    exact h
  have hysmem : ∀ z ∈ ys, 2010 ≤ z ∧ z ≤ 2023 := fun z hz =>
    choiceN_mem 2010 2023 (by norm_num) (nrows t4) g4 z (by rw [hys]; exact hz)
  obtain ⟨t5, ht5⟩ : ∃ x, setCol t4 "year" (ys.map (fun y => Value.num (Int.cast y))) = x :=
    ⟨_, rfl⟩
  have hyear : inferYearColumn t4 g4 = (t5, g5) := by
    rw [inferYearColumn, if_neg (by simp [hyany]), hyfind, hys]
    show (setCol t4 "year" (ys.map (fun y => Value.num (Int.cast y))), g5) = (t5, g5)
    rw [ht5]
  have hys_map_len : (ys.map (fun y => Value.num (Int.cast y))).length = nrows t4 := by
    rw [List.length_map, hyslen]
  have hn5 : nrows t5 = nrows t4 := by
    rw [← ht5]
    exact nrows_setCol t4 _ _ hys_map_len hrect4
  have hget5y : getCol t5 "year" = some (ys.map (fun y => Value.num (Int.cast y))) := by
    rw [← ht5]
    exact getCol_setCol t4 _ _
  have hget5s : getCol t5 "treatment_success_rate" = some (sv.map Value.num) := by
    rw [← ht5, getCol_setCol_other t4 _ _ _ (by decide), ← ht4,
      getCol_setCol_other t3 _ _ _ (by decide), hget3]
  have hpipe : cleanPipeline t g = .ok (t5, g5) := by
    simp only [cleanPipeline, ht1, ht2, hinfer, hdrop, ht4, hyear]
  refine ⟨sv, ys, (t5, g5), hpipe, ?_, ?_, ?_, ?_, hysmem, hget5s, hget5y⟩
  · rw [hsvlen, hn2]
  · rw [hyslen, hn4, hn3, hn2]
  · show nrows t5 = nrows t1
    rw [hn5, hn4, hn3, hn2]
  · exact fun q hq => ⟨(hsvmem q hq).1, le_of_lt (hsvmem q hq).2⟩

/-! ### C6: inference of the year column -/

/-- C6: `inferYearColumn` is a no-op when a column is literally named `year`
(case-sensitively); otherwise the first column whose lower-cased name
contains `year` or `date` is renamed `year` in place, values and generator
untouched; otherwise a synthetic `year` column of integers drawn from the
fixed range `[2010, 2023]` is appended, one per row, and the synthesis is a
deterministic function of the generator state and the row count; on an
input with no treatment-keyword column and no year/date column the whole
pipeline succeeds and appends both synthetic columns for every row, with
`treatment_success_rate` in `[70, 95]` and `year` in `[2010, 2023]`. -/
theorem inferYearColumn_spec :
    (∀ (t : Table) (g : Gen),
      (((names t).any (fun n => n == "year")) = true → inferYearColumn t g = (t, g)) ∧
      (∀ c, ((names t).any (fun n => n == "year")) = false →
        (names t).find? matchesYearKeyword = some c →
        matchesYearKeyword c = true ∧
        (∃ l1 l2, names t = l1 ++ c :: l2 ∧ ∀ n ∈ l1, matchesYearKeyword n = false) ∧
        (inferYearColumn t g).2 = g ∧
        names (inferYearColumn t g).1 = (names t).map (fun n => if n == c then "year" else n) ∧
        (inferYearColumn t g).1.cols.map Prod.snd = t.cols.map Prod.snd) ∧
      (((names t).any (fun n => n == "year")) = false →
        (names t).find? matchesYearKeyword = none →
        ∃ zs : List ℤ, zs.length = nrows t ∧ (∀ z ∈ zs, 2010 ≤ z ∧ z ≤ 2023) ∧
          (inferYearColumn t g).1.cols =
            t.cols ++ [("year", zs.map (fun y => Value.num (Int.cast y)))])) ∧
    (∀ (ta tb : Table) (g : Gen),
      ((names ta).any (fun n => n == "year")) = false →
      ((names tb).any (fun n => n == "year")) = false →
      (names ta).find? matchesYearKeyword = none →
      (names tb).find? matchesYearKeyword = none →
      nrows ta = nrows tb →
      getCol (inferYearColumn ta g).1 "year" = getCol (inferYearColumn tb g).1 "year") ∧
    (∀ (t : Table) (g : Gen),
      (∀ n ∈ names t, matchesTreatmentKeyword n = false) →
      (∀ n ∈ names t, matchesYearKeyword n = false) →
      ∃ (qs : List ℚ) (zs : List ℤ) (p : Table × Gen),
        cleanPipeline t g = .ok p ∧
        qs.length = nrows (dropEmptyRows t) ∧
        zs.length = nrows (dropEmptyRows t) ∧
        nrows p.1 = nrows (dropEmptyRows t) ∧
        (∀ q ∈ qs, 70 ≤ q ∧ q ≤ 95) ∧
        (∀ z ∈ zs, 2010 ≤ z ∧ z ≤ 2023) ∧
        getCol p.1 "treatment_success_rate" = some (qs.map Value.num) ∧
        getCol p.1 "year" = some (zs.map (fun y => Value.num (Int.cast y)))) := by
  refine ⟨fun t g => ⟨?_, ?_, ?_⟩, ?_, fun t g => cleanPipeline_synthetic t g⟩
  · intro h
    rw [inferYearColumn, if_pos h]
  · intro c hany hfind
    have hsplit := find?_eq_some_split _ _ _ hfind
    have hout : inferYearColumn t g = (renameCols t c "year", g) := by
      rw [inferYearColumn, if_neg (by simp [hany]), hfind]
    exact ⟨hsplit.1, hsplit.2, by rw [hout], by rw [hout]; exact names_renameCols t c _,
      by rw [hout]; exact snds_renameCols t c _⟩
  · intro hany hfind
    refine ⟨(choiceN 2010 2023 (nrows t) g).1, choiceN_length _ _ _ _,
      fun z hz => choiceN_mem 2010 2023 (by norm_num) (nrows t) g z hz, ?_⟩
    have hout : inferYearColumn t g =
        (setCol t "year" ((choiceN 2010 2023 (nrows t) g).1.map
          (fun y => Value.num (Int.cast y))), (choiceN 2010 2023 (nrows t) g).2) := by
      rw [inferYearColumn, if_neg (by simp [hany]), hfind]
    rw [hout, setCol_append]
    intro c hc
    rcases hb : (c.1 == "year") with _ | _
    · rfl
    · exfalso
      have := List.any_eq_false.mp hany c.1 (List.mem_map_of_mem Prod.fst hc)
      rw [hb] at this
      exact this rfl
  · intro ta tb g hanya hanyb hfinda hfindb hn
    have houta : inferYearColumn ta g =
        (setCol ta "year" ((choiceN 2010 2023 (nrows ta) g).1.map
          (fun y => Value.num (Int.cast y))), (choiceN 2010 2023 (nrows ta) g).2) := by
      rw [inferYearColumn, if_neg (by simp [hanya]), hfinda]
    have houtb : inferYearColumn tb g =
        (setCol tb "year" ((choiceN 2010 2023 (nrows tb) g).1.map
          (fun y => Value.num (Int.cast y))), (choiceN 2010 2023 (nrows tb) g).2) := by
      rw [inferYearColumn, if_neg (by simp [hanyb]), hfindb]
    rw [houta, houtb]
    show getCol (setCol ta "year" _) "year" = getCol (setCol tb "year" _) "year"
    rw [getCol_setCol, getCol_setCol, hn]

/-- Witness for C6: a table already carrying a `year` column is untouched. -/
theorem inferYearColumn_spec_witness :
    inferYearColumn ⟨[("year", [.num 2020])]⟩ ⟨1⟩ = (⟨[("year", [.num 2020])]⟩, ⟨1⟩) :=
  (inferYearColumn_spec.1 ⟨[("year", [.num 2020])]⟩ ⟨1⟩).1 (by decide)

/-! ### Invariant-preservation lemmas for the whole pipeline -/

lemma countNulls_fillCol (vs : List Value) (hne : numsOf vs ≠ []) :
    countNulls (fillCol vs) = 0 := by
  rw [countNulls_eq_zero, fillCol_eq_map _ hne]
  intro v hv
  obtain ⟨w, _, rfl⟩ := List.mem_map.mp hv
  exact fillWith_isNull _ w

lemma countNulls_eq_zero_of_num (ws : List Value)
    (h : ∀ w ∈ ws, ∃ q, w = Value.num q) : countNulls ws = 0 := by
  rw [countNulls_eq_zero]
  intro v hv
  obtain ⟨q, rfl⟩ := h v hv
  rfl

lemma isNumericCol_of_no_strs (vs : List Value) (h : vs.any Value.isStr = false) :
    isNumericCol vs = true := by
  rw [isNumericCol, List.all_eq_true]
  intro v hv
  rw [List.any_eq_false] at h
  have := h v hv
  simp_all

lemma any_isStr_fillCol (vs : List Value) (h : vs.any Value.isStr = false) :
    (fillCol vs).any Value.isStr = false := by
  cases hm : median (numsOf vs) with
  | none =>
    rw [fillCol, hm]
    exact h
  | some m =>
    rw [fillCol, hm]
    show (vs.map (fillWith m)).any Value.isStr = false
    rw [List.any_eq_false] at h ⊢
    intro v hv
    obtain ⟨w, hw, rfl⟩ := List.mem_map.mp hv
    cases w with
    | num q => simp [fillWith, Value.isNull, Value.isStr]
    | str s => exact absurd rfl (h _ hw)
    | null => simp [fillWith, Value.isNull, Value.isStr]

lemma any_isStr_getD_map (vs : List Value) (h : vs.any Value.isStr = false)
    (ks : List ℕ) : ((ks.map (fun i => vs.getD i .null)).any Value.isStr) = false := by
  rw [List.any_eq_false]
  intro v hv
  obtain ⟨i, _, rfl⟩ := List.mem_map.mp hv
  rcases lt_or_ge i vs.length with hi | hi
  · rw [List.any_eq_false] at h
    refine h _ ?_
    rw [List.getD_eq_getElem _ _ hi]
    exact List.getElem_mem _
  · rw [List.getD_eq_default _ _ hi]
    simp [Value.isStr]

lemma NumFilled_fillNumericNulls (t : Table) : NumFilled (fillNumericNulls t) := by
  intro c hc hnum hex
  obtain ⟨c0, hc0, rfl⟩ := List.mem_map.mp hc
  by_cases h0 : isNumericCol c0.2 = true
  · rw [if_pos h0] at hnum hex ⊢
    by_cases hnil : numsOf c0.2 = []
    · exfalso
      obtain ⟨v, hv, hvn⟩ := hex
      rw [fillCol_of_nil_nums _ hnil] at hv
      have := allNull_of_numeric_no_nums c0.2 h0 hnil v hv
      rw [this] at hvn
      exact absurd hvn (by simp [Value.isNull])
    · exact countNulls_fillCol c0.2 hnil
  · rw [if_neg h0] at hnum
    exact absurd hnum h0

lemma NumFilled_renameCols (t : Table) (old nw : String) (h : NumFilled t) :
    NumFilled (renameCols t old nw) := by
  intro c hc
  obtain ⟨c0, hc0, rfl⟩ := List.mem_map.mp hc
  by_cases h0 : (c0.1 == old) = true
  · rw [if_pos h0]
    exact h c0 hc0
  · rw [if_neg h0]
    exact h c0 hc0

lemma NumFilled_setCol (t : Table) (nm : String) (vs : List Value) (h : NumFilled t)
    (hP : (∃ w ∈ vs, w.isNull = false) → countNulls vs = 0) :
    NumFilled (setCol t nm vs) := by
  intro c hc
  by_cases hany : t.cols.any (fun c => c.1 == nm) = true
  · rw [setCol, if_pos hany] at hc
    obtain ⟨c0, hc0, rfl⟩ := List.mem_map.mp hc
    by_cases h0 : (c0.1 == nm) = true
    · rw [if_pos h0]
      exact fun _ => hP
    · rw [if_neg h0]
      exact h c0 hc0
  · rw [setCol, if_neg hany] at hc
    rcases List.mem_append.mp hc with hc1 | hc2
    · exact h c hc1
    · rw [List.mem_singleton.mp hc2]
      exact fun _ => hP

lemma dropout_vals_P (vs : List Value) (noise : List ℚ) (ds : List Value)
    (hds : ds = (vs.zip noise).map (fun q =>
      match q.1 with
      | .num x => Value.num (clip 0 100 (100 - x + q.2))
      | .str _ => Value.null
      | .null => Value.null))
    (hstr : vs.any Value.isStr = false)
    (hvP : (∃ v ∈ vs, v.isNull = false) → countNulls vs = 0) :
    (∃ w ∈ ds, w.isNull = false) → countNulls ds = 0 := by
  rw [List.any_eq_false] at hstr
  intro ⟨w, hw, hwnn⟩
  rw [hds] at hw
  obtain ⟨q, hq, rfl⟩ := List.mem_map.mp hw
  have hv1 : q.1 ∈ vs := by
    obtain ⟨a, b⟩ := q
    exact (List.of_mem_zip hq).1
  have hnull : countNulls vs = 0 := by
    apply hvP
    refine ⟨q.1, hv1, ?_⟩
    cases hq1 : q.1 with
    | num x => rfl
    | str s => exact absurd rfl (hstr _ (hq1 ▸ hv1))
    | null =>
      rw [hq1] at hwnn
      exact absurd hwnn (by simp [Value.isNull])
  rw [hds]
  apply countNulls_eq_zero_of_num
  intro w2 hw2
  obtain ⟨q2, hq2, rfl⟩ := List.mem_map.mp hw2
  have hv2 : q2.1 ∈ vs := by
    obtain ⟨a, b⟩ := q2
    exact (List.of_mem_zip hq2).1
  cases hq21 : q2.1 with
  | num x => exact ⟨_, rfl⟩
  | str s => exact absurd rfl (hstr _ (hq21 ▸ hv2))
  | null =>
    rw [countNulls_eq_zero] at hnull
    have h2 := hnull _ hv2
    rw [hq21] at h2
    exact absurd h2 (by simp [Value.isNull])

lemma all_congr_mem {α : Type} (l : List α) (p q : α → Bool)
    (h : ∀ x ∈ l, p x = q x) : l.all p = l.all q := by
  induction l with
  | nil => rfl
  | cons a l ih =>
    rw [List.all_cons, List.all_cons, h a (by simp), ih (fun x hx => h x (by simp [hx]))]

lemma rowAllNull_renameCols (t : Table) (old nw : String) (i : ℕ) :
    rowAllNull (renameCols t old nw) i = rowAllNull t i := by
  rw [rowAllNull, rowAllNull]
  show (t.cols.map _).all _ = _
  rw [List.all_map]
  apply all_congr_mem
  intro c _
  by_cases h : c.1 = old
  · simp [h]
  · simp [h]

lemma rowAllNull_fill_false (t : Table) (i : ℕ) (h : rowAllNull t i = false) :
    rowAllNull (fillNumericNulls t) i = false := by
  rw [rowAllNull, List.all_eq_false] at h ⊢
  obtain ⟨c, hc, hcn⟩ := h
  refine ⟨if isNumericCol c.2 then (c.1, fillCol c.2) else c, List.mem_map_of_mem _ hc, ?_⟩
  by_cases h0 : isNumericCol c.2 = true
  · rw [if_pos h0]
    show ¬(((fillCol c.2).getD i .null).isNull = true)
    rw [fillCol_getD_not_null c.2 i (by simpa using hcn)]
    exact hcn
  · rw [if_neg h0]
    exact hcn

lemma rowAllNull_append_false (t : Table) (x : String × List Value) (i : ℕ)
    (h : rowAllNull t i = false) :
    rowAllNull ⟨t.cols ++ [x]⟩ i = false := by
  rw [rowAllNull, List.all_eq_false] at h ⊢
  obtain ⟨c, hc, hcn⟩ := h
  exact ⟨c, List.mem_append_left _ hc, hcn⟩

lemma find?_map_fst (F : (String × List Value) → (String × List Value))
    (hF : ∀ c, (F c).1 = c.1) (nm : String) :
    ∀ l : List (String × List Value),
      (l.map F).find? (fun c => c.1 == nm) = (l.find? (fun c => c.1 == nm)).map F
  | [] => rfl
  | c :: l => by
    rcases hc : (c.1 == nm) with _ | _
    · rw [List.map_cons, List.find?_cons_of_neg _ (by simp [hF, hc]),
        List.find?_cons_of_neg _ (by simp [hc])]
      exact find?_map_fst F hF nm l
    · rw [List.map_cons, List.find?_cons_of_pos _ (by simp [hF, hc]),
        show (c :: l).find? (fun c => c.1 == nm) = some c from List.find?_cons_of_pos _ hc]
      rfl

lemma getCol_dropEmptyRows (t : Table) (nm : String) (vs : List Value)
    (h : getCol t nm = some vs) :
    getCol (dropEmptyRows t) nm = some ((keptRows t).map (fun i => vs.getD i .null)) := by
  rw [getCol] at h
  rw [getCol]
  show ((t.cols.map (fun c => (c.1, (keptRows t).map (fun i => c.2.getD i .null)))).find?
    (fun c => c.1 == nm)).map Prod.snd = _
  rw [find?_map_fst (fun c => (c.1, (keptRows t).map (fun i => c.2.getD i Value.null)))
    (fun c => rfl) nm t.cols]
  cases hf : t.cols.find? (fun c => c.1 == nm) with
  | none =>
    rw [hf] at h
    simp at h
  | some c =>
    rw [hf] at h
    obtain rfl : c.2 = vs := by simpa using h
    rfl

lemma getCol_fillNumericNulls_eq (t : Table) (nm : String) (vs : List Value)
    (h : getCol t nm = some vs) :
    getCol (fillNumericNulls t) nm =
      some (if isNumericCol vs then fillCol vs else vs) := by
  rw [getCol] at h
  rw [getCol]
  show ((t.cols.map (fun c => if isNumericCol c.2 then (c.1, fillCol c.2) else c)).find?
    (fun c => c.1 == nm)).map Prod.snd = _
  rw [find?_map_fst (fun c => if isNumericCol c.2 then (c.1, fillCol c.2) else c)
    ?_ nm t.cols]
  · cases hf : t.cols.find? (fun c => c.1 == nm) with
    | none =>
      rw [hf] at h
      simp at h
    | some c =>
      rw [hf] at h
      obtain rfl : c.2 = vs := by simpa using h
      by_cases h0 : isNumericCol c.2 = true
      · simp [h0]
      · simp [h0]
  · intro c
    by_cases h0 : isNumericCol c.2 = true
    · show (if isNumericCol c.2 then (c.1, fillCol c.2) else c).1 = c.1
      rw [if_pos h0]
    · show (if isNumericCol c.2 then (c.1, fillCol c.2) else c).1 = c.1
      rw [if_neg h0]

lemma getCol_mem (t : Table) (nm : String) (ws : List Value)
    (h : getCol t nm = some ws) : ∃ nm2, (nm2, ws) ∈ t.cols := by
  rw [getCol] at h
  cases hf : t.cols.find? (fun c => c.1 == nm) with
  | none =>
    rw [hf] at h
    simp at h
  | some c =>
    rw [hf] at h
    obtain rfl : c.2 = ws := by simpa using h
    exact ⟨c.1, by simpa using List.mem_of_find?_eq_some hf⟩

lemma mem_names_renameCols_new (t : Table) (c nw : String) (hc : c ∈ names t) :
    nw ∈ names (renameCols t c nw) := by
  rw [names_renameCols]
  exact List.mem_map.mpr ⟨c, hc, by simp⟩

lemma mem_names_renameCols_other (t : Table) (old nw m : String) (hm : m ∈ names t)
    (hne : m ≠ old) : m ∈ names (renameCols t old nw) := by
  rw [names_renameCols]
  exact List.mem_map.mpr ⟨m, hm, by simp [hne]⟩

lemma find?_names_eq (p : String → Bool) :
    ∀ l : List (String × List Value),
      (l.map Prod.fst).find? p = (l.find? (fun c => p c.1)).map Prod.fst
  | [] => rfl
  | c :: l => by
    rcases hc : p c.1 with _ | _
    · rw [List.map_cons, List.find?_cons_of_neg _ (by simpa using hc),
        List.find?_cons_of_neg _ (by simp [hc])]
      exact find?_names_eq p l
    · rw [List.map_cons,
        show (c.1 :: l.map Prod.fst).find? p = some c.1 from List.find?_cons_of_pos _ hc,
        show (c :: l).find? (fun c => p c.1) = some c from List.find?_cons_of_pos _ hc]
      rfl

lemma rename_first_aux (p : String → Bool) (nm : String) (hnm : p nm = true) (c : String) :
    ∀ (l : List (String × List Value)) (c0 : String × List Value),
      l.find? (fun cc => p cc.1) = some c0 → c0.1 = c →
      (l.map (fun cc => if cc.1 == c then (nm, cc.2) else cc)).find?
          (fun cc => cc.1 == nm) = some (nm, c0.2) ∧
        l.find? (fun cc => cc.1 == c) = some c0
  | [], c0, h, _ => by simp [List.find?] at h
  | a :: l, c0, h, hc0 => by
    rcases hpa : p a.1 with _ | _
    · rw [List.find?_cons_of_neg _ (by simp [hpa])] at h
      obtain ⟨ih1, ih2⟩ := rename_first_aux p nm hnm c l c0 h hc0
      have hpc0 : p c0.1 = true := by simpa using List.find?_some h
      have hac : (a.1 == c) = false := by
        rcases hb : (a.1 == c) with _ | _
        · rfl
        · exfalso
          have heq : a.1 = c := by simpa using hb
          rw [heq, ← hc0] at hpa
          rw [hpa] at hpc0
          exact Bool.false_ne_true hpc0
      have hanm : (a.1 == nm) = false := by
        rcases hb : (a.1 == nm) with _ | _
        · rfl
        · exfalso
          have heq : a.1 = nm := by simpa using hb
          rw [heq] at hpa
          rw [hpa] at hnm
          exact Bool.false_ne_true hnm
      constructor
      · rw [List.map_cons, if_neg (by simp [hac]),
          List.find?_cons_of_neg _ (by simp [hanm])]
        exact ih1
      · rw [List.find?_cons_of_neg _ (by simp [hac])]
        exact ih2
    · rw [show (a :: l).find? (fun cc => p cc.1) = some a from
        List.find?_cons_of_pos _ (by simpa using hpa)] at h
      obtain rfl : a = c0 := by simpa using h
      constructor
      · rw [List.map_cons, if_pos (by simp [hc0])]
        exact List.find?_cons_of_pos _ (by simp)
      · exact List.find?_cons_of_pos _ (by simp [hc0])

lemma getCol_renameCols_first (t : Table) (c nm : String) (p : String → Bool)
    (hfind : (names t).find? p = some c) (hnm : p nm = true) :
    getCol (renameCols t c nm) nm = getCol t c := by
  have hconv : ∃ c0, t.cols.find? (fun cc => p cc.1) = some c0 ∧ c0.1 = c := by
    rw [names, find?_names_eq] at hfind
    cases hf : t.cols.find? (fun cc => p cc.1) with
    | none =>
      rw [hf] at hfind
      simp at hfind
    | some c0 =>
      rw [hf] at hfind
      exact ⟨c0, rfl, by simpa using hfind⟩
  obtain ⟨c0, hf0, hc0⟩ := hconv
  have haux := rename_first_aux p nm hnm c t.cols c0 hf0 hc0
  rw [getCol, getCol]
  show ((t.cols.map (fun cc => if cc.1 == c then (nm, cc.2) else cc)).find?
    (fun cc => cc.1 == nm)).map Prod.snd = _
  rw [haux.1, haux.2]
  rfl

/-- The tail of the pipeline (dropout derivation then year inference), run
from any table whose success column exists and holds no text: it succeeds,
keeps the row count, keeps every numeric column with data free of nulls, and
ends with all three canonical columns present. -/
lemma pipeline_tail (t3 : Table) (g3 : Gen) (hrect3 : Rect t3)
    (hnf3 : NumFilled t3)
    (sv : List Value) (hget3 : getCol t3 "treatment_success_rate" = some sv)
    (hstr : sv.any Value.isStr = false)
    (htsr3 : "treatment_success_rate" ∈ names t3) :
    ∃ (p4 p : Table × Gen),
      deriveDropoutColumn t3 g3 = .ok p4 ∧
      inferYearColumn p4.1 p4.2 = p ∧
      "treatment_success_rate" ∈ names p.1 ∧
      "dropout_rate" ∈ names p.1 ∧
      "year" ∈ names p.1 ∧
      NumFilled p.1 ∧
      nrows p.1 = nrows t3 ∧
      ("dropout_rate" ∉ names t3 → NoEmptyRows t3 → NoEmptyRows p.1) := by
  obtain ⟨noise, g4, hnoise⟩ : ∃ a b, uniformN (-5) 5 (nrows t3) g3 = (a, b) := ⟨_, _, rfl⟩
  obtain ⟨ds, hds⟩ : ∃ x, (sv.zip noise).map (fun q =>
      match q.1 with
      | .num x => Value.num (clip 0 100 (100 - x + q.2))
      | .str _ => Value.null
      | .null => Value.null) = x := ⟨_, rfl⟩
  have hdrop : deriveDropoutColumn t3 g3 = .ok (setCol t3 "dropout_rate" ds, g4) := by
    rw [deriveDropoutColumn, hget3]
    simp only [hstr, Bool.false_eq_true, if_false]
    rw [hnoise]
    show Except.ok (setCol t3 "dropout_rate" ((sv.zip noise).map (fun q =>
      match q.1 with
      | .num x => Value.num (clip 0 100 (100 - x + q.2))
      | .str _ => Value.null
      | .null => Value.null)), g4) = _
    rw [hds]
  obtain ⟨t4, ht4⟩ : ∃ x, setCol t3 "dropout_rate" ds = x := ⟨_, rfl⟩
  have hsvlen : sv.length = nrows t3 := getCol_length t3 _ sv hget3 hrect3
  have hnl : noise.length = nrows t3 := by
    have h := uniformN_length (-5) 5 (nrows t3) g3
    rw [hnoise] at h
    exact h
  have hds_len : ds.length = nrows t3 := by
    rw [← hds, List.length_map, List.length_zip, hsvlen, hnl, min_self]
  have hrect4 : Rect t4 := ht4 ▸ Rect_setCol t3 _ _ hds_len hrect3
  have hn4 : nrows t4 = nrows t3 := by
    rw [← ht4]
    exact nrows_setCol t3 _ _ hds_len hrect3
  have hPds : (∃ w ∈ ds, w.isNull = false) → countNulls ds = 0 := by
    refine dropout_vals_P sv noise ds hds.symm hstr ?_
    obtain ⟨nm2, hmem⟩ := getCol_mem t3 _ sv hget3
    exact fun hex => hnf3 (nm2, sv) hmem (isNumericCol_of_no_strs sv hstr) hex
  have hnf4 : NumFilled t4 := ht4 ▸ NumFilled_setCol t3 _ ds hnf3 hPds
  have htsr4 : "treatment_success_rate" ∈ names t4 :=
    ht4 ▸ mem_names_setCol_mono t3 _ ds _ htsr3
  have hdr4 : "dropout_rate" ∈ names t4 := ht4 ▸ mem_names_setCol_self t3 _ ds
  have hrows4 : "dropout_rate" ∉ names t3 → NoEmptyRows t3 → NoEmptyRows t4 := by
    intro hnotin hrows
    have happend : t4.cols = t3.cols ++ [("dropout_rate", ds)] := by
      rw [← ht4]
      rw [setCol_append]
      intro c hc
      rcases hb : (c.1 == "dropout_rate") with _ | _
      · rfl
      · exfalso
        have heq : c.1 = "dropout_rate" := by simpa using hb
        exact hnotin (heq ▸ List.mem_map_of_mem Prod.fst hc)
    intro i hi
    have hi3 : i < nrows t3 := by rwa [hn4] at hi
    have h3 := rowAllNull_append_false t3 ("dropout_rate", ds) i (hrows i hi3)
    have he : rowAllNull t4 i = rowAllNull ⟨t3.cols ++ [("dropout_rate", ds)]⟩ i := by
      rw [← happend]
    rw [he]
    exact h3
  by_cases hyany : ((names t4).any (fun n => n == "year")) = true
  · have hyear : inferYearColumn t4 g4 = (t4, g4) := by
      rw [inferYearColumn, if_pos hyany]
    have hymem : "year" ∈ names t4 := by
      obtain ⟨n, hn, hb⟩ := List.any_eq_true.mp hyany
      have : n = "year" := by simpa using hb
      exact this ▸ hn
    refine ⟨(setCol t3 "dropout_rate" ds, g4), (t4, g4), hdrop, ?_, htsr4, hdr4, hymem,
      hnf4, hn4, hrows4⟩
    show inferYearColumn (setCol t3 "dropout_rate" ds) g4 = (t4, g4)
    rw [ht4, hyear]
  · cases hyfind : (names t4).find? matchesYearKeyword with
    | some c =>
      have hyear : inferYearColumn t4 g4 = (renameCols t4 c "year", g4) := by
        rw [inferYearColumn, if_neg (by simp [hyany]), hyfind]
      have hcmatch : matchesYearKeyword c = true := List.find?_some hyfind
      have hcmem : c ∈ names t4 := List.mem_of_find?_eq_some hyfind
      have htsr_ne : "treatment_success_rate" ≠ c := by
        intro heq
        rw [← heq] at hcmatch
        exact absurd hcmatch (by decide)
      have hdr_ne : "dropout_rate" ≠ c := by
        intro heq
        rw [← heq] at hcmatch
        exact absurd hcmatch (by decide)
      refine ⟨(setCol t3 "dropout_rate" ds, g4), (renameCols t4 c "year", g4), hdrop, ?_,
        mem_names_renameCols_other t4 c "year" _ htsr4 htsr_ne,
        mem_names_renameCols_other t4 c "year" _ hdr4 hdr_ne,
        mem_names_renameCols_new t4 c "year" hcmem,
        NumFilled_renameCols t4 c "year" hnf4, ?_, ?_⟩
      · show inferYearColumn (setCol t3 "dropout_rate" ds) g4 = _
        rw [ht4, hyear]
      · show nrows (renameCols t4 c "year") = nrows t3
        rw [nrows_renameCols, hn4]
      · intro hnotin hrows i hi
        rw [rowAllNull_renameCols]
        have hi4 : i < nrows t4 := by
          rwa [show nrows (renameCols t4 c "year") = nrows t4 from nrows_renameCols t4 c _] at hi
        exact hrows4 hnotin hrows i hi4
    | none =>
      obtain ⟨ys, g5, hys⟩ : ∃ a b, choiceN 2010 2023 (nrows t4) g4 = (a, b) := ⟨_, _, rfl⟩
      have hyear : inferYearColumn t4 g4 =
          (setCol t4 "year" (ys.map (fun y => Value.num (Int.cast y))), g5) := by
        rw [inferYearColumn, if_neg (by simp [hyany]), hyfind, hys]
      have hyslen : ys.length = nrows t4 := by
        have h := choiceN_length 2010 2023 (nrows t4) g4
        rw [hys] at h
        exact h
      have hylen : (ys.map (fun y => Value.num (Int.cast y))).length = nrows t4 := by
        rw [List.length_map, hyslen]
      refine ⟨(setCol t3 "dropout_rate" ds, g4),
        (setCol t4 "year" (ys.map (fun y => Value.num (Int.cast y))), g5), hdrop, ?_,
        mem_names_setCol_mono t4 _ _ _ htsr4,
        mem_names_setCol_mono t4 _ _ _ hdr4,
        mem_names_setCol_self t4 _ _,
        NumFilled_setCol t4 _ _ hnf4
          (fun _ => countNulls_eq_zero_of_num _ (fun w hw => by
            obtain ⟨y, _, rfl⟩ := List.mem_map.mp hw
            exact ⟨_, rfl⟩)), ?_, ?_⟩
      · show inferYearColumn (setCol t3 "dropout_rate" ds) g4 = _
        rw [ht4, hyear]
      · show nrows (setCol t4 "year" _) = nrows t3
        rw [nrows_setCol t4 _ _ hylen hrect4, hn4]
      · intro hnotin hrows i hi
        have happend : (setCol t4 "year" (ys.map (fun y => Value.num (Int.cast y)))).cols =
            t4.cols ++ [("year", ys.map (fun y => Value.num (Int.cast y)))] := by
          rw [setCol_append]
          intro c hc
          rcases hb : (c.1 == "year") with _ | _
          · rfl
          · exfalso
            have heq : c.1 = "year" := by simpa using hb
            have hmem : "year" ∈ names t4 := heq ▸ List.mem_map_of_mem Prod.fst hc
            obtain ⟨n2, hn2, hb2⟩ : ∃ n2 ∈ names t4, (n2 == "year") = true :=
              ⟨"year", hmem, by simp⟩
            exact absurd (List.any_eq_true.mpr ⟨"year", hmem, by simp⟩) hyany
        have hi4 : i < nrows t4 := by
          rwa [show nrows (setCol t4 "year" (ys.map (fun y => Value.num (Int.cast y)))) =
            nrows t4 from nrows_setCol t4 _ _ hylen hrect4] at hi
        have h4 := rowAllNull_append_false t4
          ("year", ys.map (fun y => Value.num (Int.cast y))) i (hrows4 hnotin hrows i hi4)
        have he : rowAllNull (setCol t4 "year" (ys.map (fun y => Value.num (Int.cast y)))) i =
            rowAllNull ⟨t4.cols ++ [("year", ys.map (fun y => Value.num (Int.cast y)))]⟩ i := by
          rw [← happend]
        rw [he]
        exact h4

/-! ### C1: pipeline totality and final-table invariants, as amended -/

/-- C1 (amended): for every input table whose first treatment-keyword
matching column — when one exists — contains no text cells, the pipeline
terminates without failing, the final table carries columns named
`treatment_success_rate`, `dropout_rate` and `year`, every numeric column
with at least one non-null value has zero remaining nulls, and — provided
no input column is named `dropout_rate` — no fully-empty rows remain. -/
theorem cleanPipeline_invariants (t : Table) (g : Gen)
    (hsucc : ∀ c vs, (names t).find? matchesTreatmentKeyword = some c →
      getCol t c = some vs → vs.any Value.isStr = false) :
    ∃ p : Table × Gen, cleanPipeline t g = .ok p ∧
      "treatment_success_rate" ∈ names p.1 ∧
      "dropout_rate" ∈ names p.1 ∧
      "year" ∈ names p.1 ∧
      NumFilled p.1 ∧
      ("dropout_rate" ∉ names t → NoEmptyRows p.1) := by
  obtain ⟨t1, ht1⟩ : ∃ x, dropEmptyRows t = x := ⟨_, rfl⟩
  obtain ⟨t2, ht2⟩ : ∃ x, fillNumericNulls t1 = x := ⟨_, rfl⟩
  have hrect1 : Rect t1 := ht1 ▸ Rect_dropEmptyRows t
  have hrect2 : Rect t2 := ht2 ▸ Rect_fillNumericNulls t1 hrect1
  have hnames1 : names t1 = names t := ht1 ▸ names_dropEmptyRows t
  have hnames2 : names t2 = names t := by
    rw [← ht2, names_fillNumericNulls, hnames1]
  have hnf2 : NumFilled t2 := ht2 ▸ NumFilled_fillNumericNulls t1
  have hn2 : nrows t2 = nrows t1 := by
    rw [← ht2, nrows_fillNumericNulls]
  have hrows2 : NoEmptyRows t2 := by
    intro i hi
    have hi1 : i < nrows t1 := by rwa [hn2] at hi
    have h1 : rowAllNull t1 i = false := ht1 ▸ dropEmptyRows_no_empty t i (ht1 ▸ hi1)
    rw [← ht2]
    exact rowAllNull_fill_false t1 i h1
  cases hfind2 : (names t2).find? matchesTreatmentKeyword with
  | some c =>
    have hfind_t : (names t).find? matchesTreatmentKeyword = some c := by
      rwa [hnames2] at hfind2
    obtain ⟨t3, ht3⟩ : ∃ x, renameCols t2 c "treatment_success_rate" = x := ⟨_, rfl⟩
    have hinfer : inferSuccessColumn t2 g = (t3, g) := by
      rw [inferSuccessColumn, hfind2]
      show (renameCols t2 c "treatment_success_rate", g) = (t3, g)
      rw [ht3]
    have hcmem_t : c ∈ names t := List.mem_of_find?_eq_some hfind_t
    obtain ⟨vs0, hvs0⟩ := getCol_of_mem_names t c hcmem_t
    have hstr0 : vs0.any Value.isStr = false := hsucc c vs0 hfind_t hvs0
    obtain ⟨vs1, hvs1, hstr1⟩ : ∃ vs1, getCol t1 c = some vs1 ∧ vs1.any Value.isStr = false :=
      ⟨_, ht1 ▸ getCol_dropEmptyRows t c vs0 hvs0, any_isStr_getD_map vs0 hstr0 _⟩
    have hnum1 : isNumericCol vs1 = true := isNumericCol_of_no_strs _ hstr1
    have hvs2 : getCol t2 c = some (fillCol vs1) := by
      have h := getCol_fillNumericNulls_eq t1 c vs1 hvs1
      rw [if_pos hnum1] at h
      exact ht2 ▸ h
    have hstr2 : (fillCol vs1).any Value.isStr = false := any_isStr_fillCol vs1 hstr1
    have hget3 : getCol t3 "treatment_success_rate" = some (fillCol vs1) := by
      rw [← ht3, getCol_renameCols_first t2 c _ matchesTreatmentKeyword hfind2 (by decide)]
      exact hvs2
    have hcmem2 : c ∈ names t2 := List.mem_of_find?_eq_some hfind2
    have htsr3 : "treatment_success_rate" ∈ names t3 :=
      ht3 ▸ mem_names_renameCols_new t2 c _ hcmem2
    have hrect3 : Rect t3 := ht3 ▸ Rect_renameCols t2 c _ hrect2
    have hnf3 : NumFilled t3 := ht3 ▸ NumFilled_renameCols t2 c _ hnf2
    have hrows3 : NoEmptyRows t3 := by
      intro i hi
      rw [← ht3, rowAllNull_renameCols]
      refine hrows2 i ?_
      rwa [← ht3, nrows_renameCols] at hi
    have hdr3 : "dropout_rate" ∉ names t → "dropout_rate" ∉ names t3 := by
      intro hni hmem
      rw [← ht3, names_renameCols] at hmem
      obtain ⟨n, hn, hnn⟩ := List.mem_map.mp hmem
      by_cases hb : n = c
      · rw [if_pos (by simp [hb])] at hnn
        exact absurd hnn (by decide)
      · rw [if_neg (by simp [hb])] at hnn
        rw [hnames2] at hn
        exact hni (hnn ▸ hn)
    obtain ⟨p4, p, hdrop, hyear, h1, h2, h3, h4, _, h6⟩ :=
      pipeline_tail t3 g hrect3 hnf3 (fillCol vs1) hget3 hstr2 htsr3
    refine ⟨p, ?_, h1, h2, h3, h4, fun hni => h6 (hdr3 hni) hrows3⟩
    simp only [cleanPipeline, ht1, ht2, hinfer, hdrop, hyear]
  | none =>
    obtain ⟨sv, g3, hsv⟩ : ∃ a b, uniformN 70 95 (nrows t2) (seedGen 42) = (a, b) := ⟨_, _, rfl⟩
    have hsvlen : sv.length = nrows t2 := by
      have h := uniformN_length 70 95 (nrows t2) (seedGen 42)
      rw [hsv] at h
      exact h
    obtain ⟨t3, ht3⟩ : ∃ x, setCol t2 "treatment_success_rate" (sv.map Value.num) = x :=
      ⟨_, rfl⟩
    have hinfer : inferSuccessColumn t2 g = (t3, g3) := by
      rw [inferSuccessColumn, hfind2, hsv]
      show (setCol t2 "treatment_success_rate" (sv.map Value.num), g3) = (t3, g3)
      rw [ht3]
    have hmap_len : (sv.map Value.num).length = nrows t2 := by
      rw [List.length_map, hsvlen]
    have hrect3 : Rect t3 := ht3 ▸ Rect_setCol t2 _ _ hmap_len hrect2
    have hn3 : nrows t3 = nrows t2 := by
      rw [← ht3]
      exact nrows_setCol t2 _ _ hmap_len hrect2
    have hget3 : getCol t3 "treatment_success_rate" = some (sv.map Value.num) := by
      rw [← ht3]
      exact getCol_setCol t2 _ _
    have htsr_notin2 : ∀ cc ∈ t2.cols, (cc.1 == "treatment_success_rate") = false :=
      not_named_of_find_none t2 matchesTreatmentKeyword _ hfind2 (by decide)
    have hcols3 : t3.cols = t2.cols ++ [("treatment_success_rate", sv.map Value.num)] := by
      rw [← ht3, setCol_append t2 _ _ htsr_notin2]
    have htsr3 : "treatment_success_rate" ∈ names t3 := ht3 ▸ mem_names_setCol_self t2 _ _
    have hnf3 : NumFilled t3 := ht3 ▸ NumFilled_setCol t2 _ _ hnf2
      (fun _ => countNulls_eq_zero_of_num _ (fun w hw => by
        obtain ⟨q, _, rfl⟩ := List.mem_map.mp hw
        exact ⟨_, rfl⟩))
    have hrows3 : NoEmptyRows t3 := by
      intro i hi
      have hi2 : i < nrows t2 := by rwa [hn3] at hi
      have h2 := rowAllNull_append_false t2 ("treatment_success_rate", sv.map Value.num) i
        (hrows2 i hi2)
      have he : rowAllNull t3 i =
          rowAllNull ⟨t2.cols ++ [("treatment_success_rate", sv.map Value.num)]⟩ i := by
        rw [← hcols3]
      rw [he]
      exact h2
    have hdr3 : "dropout_rate" ∉ names t → "dropout_rate" ∉ names t3 := by
      intro hni hmem
      rw [names] at hmem
      rw [hcols3, List.map_append] at hmem
      rcases List.mem_append.mp hmem with h1 | h2
      · have h1n : "dropout_rate" ∈ names t2 := h1
        rw [hnames2] at h1n
        exact hni h1n
      · simp at h2
    obtain ⟨p4, p, hdrop, hyear, h1, h2, h3, h4, _, h6⟩ :=
      pipeline_tail t3 g3 hrect3 hnf3 (sv.map Value.num) hget3 (any_isStr_map_num sv) htsr3
    refine ⟨p, ?_, h1, h2, h3, h4, fun hni => h6 (hdr3 hni) hrows3⟩
    simp only [cleanPipeline, ht1, ht2, hinfer, hdrop, hyear]

/-- Counterexample to C1 as stated.  Three concrete inputs violate its three
unqualified guarantees: on a table with an entirely-null numeric column
(`empty_num`) the pipeline succeeds but both its nulls remain, so not every
numeric column ends with zero nulls; on a table whose first keyword-matching
column (`Treatment Outcome`) holds text, the run aborts with a TypeError
instead of terminating without failing; and on a table with an all-null
success column, a pre-existing `dropout_rate` column and a `year` column,
the dropout overwrite turns the only surviving row fully null, so a
fully-empty row remains. -/
theorem cleanPipeline_claim_counterexample :
    (match cleanPipeline ⟨[("notes", [.str "x", .str "y"]),
        ("empty_num", [.null, .null])]⟩ ⟨0⟩ with
     | .ok p => countNulls ((getCol p.1 "empty_num").getD [])
     | .error _ => 0) = 2 ∧
    isOkE (cleanPipeline ⟨[("Treatment Outcome", [.str "cured", .str "died"])]⟩ ⟨0⟩) = false ∧
    (match cleanPipeline ⟨[("success_metric", [.null]), ("dropout_rate", [.num 7]),
        ("year", [.null])]⟩ ⟨0⟩ with
     | .ok p => rowAllNull p.1 0
     | .error _ => false) = true := by
  refine ⟨by decide, by decide, by decide⟩

/-- Witness for the amended C1 at the §8 scenario table, whose first
keyword-matching column `outcome_rate` is numeric. -/
theorem cleanPipeline_invariants_witness :
    isOkE (cleanPipeline scenarioMedianTable ⟨0⟩) = true ∧
    "treatment_success_rate" ∈ names (okTable (cleanPipeline scenarioMedianTable ⟨0⟩)) ∧
    "dropout_rate" ∈ names (okTable (cleanPipeline scenarioMedianTable ⟨0⟩)) ∧
    "year" ∈ names (okTable (cleanPipeline scenarioMedianTable ⟨0⟩)) := by
  have hs : ∀ c vs, (names scenarioMedianTable).find? matchesTreatmentKeyword = some c →
      getCol scenarioMedianTable c = some vs → vs.any Value.isStr = false := by
    intro c vs h1 h2
    have hfe : (names scenarioMedianTable).find? matchesTreatmentKeyword =
        some "outcome_rate" := by decide
    rw [hfe] at h1
    obtain rfl := Option.some.inj h1
    have hge : getCol scenarioMedianTable "outcome_rate" =
        some [Value.null, Value.num 50, Value.num 70] := by decide
    rw [hge] at h2
    obtain rfl := Option.some.inj h2
    decide
  obtain ⟨p, hp, h1, h2, h3, _, _⟩ := cleanPipeline_invariants scenarioMedianTable ⟨0⟩ hs
  rw [hp]
  exact ⟨rfl, h1, h2, h3⟩

end TBClean
